import Mathlib

/-
  Verification of the momentum / health-score engine (logic/momentum.py).

  The engine is embedded shallowly:
  * prices and volumes are exact rationals (the Python floats are modelled by
    exact arithmetic; IEEE rounding is out of scope),
  * the transcendental parts (math.log, math.sqrt, math.exp) are modelled by
    Real.log, Real.sqrt, Real.exp on the reals,
  * Python round() (banker's rounding, ties to even) is modelled by rndE,
  * heterogeneous input records are modelled by the Item type: a bare number,
    a dict carrying an optional numeric close/price and an optional numeric
    volume, or any other malformed entry.
-/

set_option maxHeartbeats 1000000
set_option maxRecDepth 8000

namespace Momentum

/-- One element of the price_history input: a bare number, a dict whose
close (or price) key yields a number or not and whose volume key yields a
number or not, or any other malformed object. -/
inductive Item where
  | num (x : ℚ)
  | record (close : Option ℚ) (volume : Option ℚ)
  | other
  deriving DecidableEq

/-- Python helper _clamp with the default bounds 0.0 and 1.0. -/
def clamp {α : Type} [LinearOrder α] [Zero α] [One α] (x : α) : α :=
  max 0 (min 1 x)

/-- Python helper _mean: sum(xs)/len(xs) if xs else 0.0. -/
def mean {α : Type} [DivisionRing α] (xs : List α) : α :=
  match xs with
  | [] => 0
  | _ => xs.sum / (xs.length : α)

/-- Python helper _stdev: sample standard deviation, 0 for fewer than two
points; math.sqrt(max(0.0, var)) is Real.sqrt (max 0 var). -/
noncomputable def stdev (xs : List ℝ) : ℝ :=
  if xs.length < 2 then 0
  else
    let m := mean xs
    let var := (xs.map (fun x => (x - m) ^ 2)).sum / ((xs.length : ℝ) - 1)
    Real.sqrt (max 0 var)

/-- Python slice l[-n:] for n ≥ 1 (whole list when n ≥ len). -/
def lastN {α : Type} (n : ℕ) (l : List α) : List α := l.drop (l.length - n)

/-- Python slice l[:-n] for n ≥ 1 (empty when n ≥ len). -/
def dropLastN {α : Type} (n : ℕ) (l : List α) : List α := l.take (l.length - n)

/-- Python helper _ema: EMA seeded at the first value of the window,
smoothing factor 2/(period+1); returns the last value (or 0 on empty input)
when period ≤ 1. -/
def ema (values : List ℚ) (period : ℕ) : ℚ :=
  if values = [] ∨ period ≤ 1 then values.getLastD 0
  else
    let k : ℚ := 2 / ((period : ℚ) + 1)
    values.tail.foldl (fun e v => v * k + e * (1 - k)) (values.headD 0)

/-- Python helper _sma: mean of the trailing period values, of the whole
list when shorter than the period, 0 on empty input. -/
def sma (values : List ℚ) (period : ℕ) : ℚ :=
  if values = [] then 0
  else if values.length < period then mean values
  else mean (lastN period values)

/-- Python helper _pct_change (a is never None in this embedding). -/
def pct_change (a b : ℚ) : ℚ := if a = 0 then 0 else (b - a) / a

/-- Loop of _max_drawdown: running peak and running max drawdown. -/
def mdd_go : List ℚ → ℚ → ℚ → ℚ
  | [], _, mdd => mdd
  | p :: rest, peak, mdd =>
      let peak' := if peak < p then p else peak
      let dd := if 0 < peak' then (peak' - p) / peak' else 0
      mdd_go rest peak' (if mdd < dd then dd else mdd)

/-- Python helper _max_drawdown: largest peak-to-trough fractional decline
with running peak tracking (0 on empty input). -/
def max_drawdown (prices : List ℚ) : ℚ :=
  match prices with
  | [] => 0
  | p :: rest => mdd_go (p :: rest) p 0

/-- Python helper _rsi, Wilder-style smoothing; 50 for fewer than period+1
points, 100 when the smoothed average loss is 0. -/
def rsi (prices : List ℚ) (period : ℕ) : ℚ :=
  if prices.length < period + 1 then 50
  else
    let diffs := (prices.zip prices.tail).map (fun p => p.2 - p.1)
    let gains := diffs.map (fun d => max 0 d)
    let losses := diffs.map (fun d => max 0 (-d))
    let avg_gain := (gains.drop period).foldl
      (fun a g => (a * ((period : ℚ) - 1) + g) / (period : ℚ)) (mean (gains.take period))
    let avg_loss := (losses.drop period).foldl
      (fun a l => (a * ((period : ℚ) - 1) + l) / (period : ℚ)) (mean (losses.take period))
    if avg_loss = 0 then 100
    else 100 - 100 / (1 + avg_gain / avg_loss)

/-- Python helper _normalize_linear: clamp((x-x0)/(x1-x0)) with 0.5 on a
degenerate interval. -/
def normalize_linear {α : Type} [LinearOrderedField α] (x x0 x1 : α) : α :=
  if x0 = x1 then 1/2 else clamp ((x - x0) / (x1 - x0))

/-- Python round() to an integer: nearest integer, ties to even. -/
def rndE {α : Type} [LinearOrderedField α] [FloorRing α] (x : α) : ℤ :=
  if Int.fract x = 1/2 then (if Even ⌊x⌋ then ⌊x⌋ else ⌊x⌋ + 1) else round x

/-- Python round(x, 3). -/
def round3 {α : Type} [LinearOrderedField α] [FloorRing α] (x : α) : α :=
  ((rndE (1000 * x) : ℤ) : α) / 1000

/-- Python round(x, 4). -/
def round4 {α : Type} [LinearOrderedField α] [FloorRing α] (x : α) : α :=
  ((rndE (10000 * x) : ℤ) : α) / 10000

/-- min(window) in _structure_subscore (0 on empty input, never hit). -/
def listMin : List ℚ → ℚ
  | [] => 0
  | x :: xs => xs.foldl min x

/-- max(window) in _structure_subscore (0 on empty input, never hit). -/
def listMax : List ℚ → ℚ
  | [] => 0
  | x :: xs => xs.foldl max x

def HEALTH_WINDOW_DAYS : ℕ := 200

/-- The accumulating loop of _extract_series: returns the collected prices,
the collected volumes and the has_vol flag. A bare positive number
contributes its price and clears has_vol; a record with a valid close keeps
its price and keeps its volume only when the volume is a number ≥ 0;
everything else clears has_vol. -/
def extract_loop : List Item → List ℚ × List ℚ × Bool
  | [] => ([], [], true)
  | item :: rest =>
      let r := extract_loop rest
      match item with
      | Item.num x => if 0 < x then (x :: r.1, r.2.1, false) else (r.1, r.2.1, false)
      | Item.record c v =>
        match c with
        | some cv =>
          if 0 < cv then
            match v with
            | some vv =>
                if 0 ≤ vv then (cv :: r.1, vv :: r.2.1, r.2.2)
                else (cv :: r.1, r.2.1, false)
            | none => (cv :: r.1, r.2.1, false)
          else (r.1, r.2.1, false)
        | none => (r.1, r.2.1, false)
      | Item.other => (r.1, r.2.1, false)

/-- Python _extract_series: fewer than 10 valid prices yields ([], None);
volumes are kept only when has_vol survived and the lengths match. -/
def extract_series (price_history : List Item) : List ℚ × Option (List ℚ) :=
  let r := extract_loop price_history
  if r.1.length < 10 then ([], none)
  else if r.2.2 = false ∨ r.2.1.length ≠ r.1.length then (r.1, none)
  else (r.1, some r.2.1)

/-- The close price contributed by an item, if any (specification view of
the extraction loop). -/
def closeOf : Item → Option ℚ
  | Item.num x => if 0 < x then some x else none
  | Item.record (some c) _ => if 0 < c then some c else none
  | _ => none

/-- The volume contributed by an item, if any. -/
def volOf : Item → Option ℚ
  | Item.record (some c) (some v) => if 0 < c ∧ 0 ≤ v then some v else none
  | _ => none

/-- Whether an item is a record with a valid close and a valid volume: the
items that leave the has_vol flag of the extraction loop intact. -/
def recHasVol : Item → Bool
  | Item.record (some c) (some v) => decide (0 < c) && decide (0 ≤ v)
  | _ => false

/-- The valid prices of an input, in order. -/
def validPrices (l : List Item) : List ℚ := l.filterMap closeOf

/-- The valid volumes of an input, in order. -/
def validVols (l : List Item) : List ℚ := l.filterMap volOf

/-- Python _structure_subscore intermediate values
(above50, above200, ma_stack, range_pos). -/
def structure_parts (prices : List ℚ) : ℚ × ℚ × ℚ × ℚ :=
  let p := prices.getLastD 0
  let ma50 := sma prices 50
  let ma200 := sma prices 200
  let above50 : ℚ := if ma50 ≤ p then 1 else 0
  let above200 : ℚ := if ma200 ≤ p then 1 else 0
  let ma_stack : ℚ := if ma200 ≤ ma50 then 1 else 0
  let look := min 60 prices.length
  let window := lastN look prices
  let lo := listMin window
  let hi := listMax window
  let range_pos := clamp (if hi = lo then 1/2 else (p - lo) / (hi - lo))
  (above50, above200, ma_stack, range_pos)

/-- Python _structure_subscore: weighted sum of the four parts, clamped. -/
def structure_subscore (prices : List ℚ) : ℚ :=
  let parts := structure_parts prices
  clamp ((30/100) * parts.1 + (35/100) * parts.2.1 + (20/100) * parts.2.2.1
    + (15/100) * parts.2.2.2)

/-- Python _momentum_subscore. -/
def momentum_subscore (prices : List ℚ) : ℚ :=
  let rsiv := rsi prices 14
  let rsi_score := 1 - normalize_linear |rsiv - 60| 0 30
  let roc20 :=
    if 21 ≤ prices.length then pct_change ((lastN 21 prices).headD 0) (prices.getLastD 0)
    else pct_change (prices.headD 0) (prices.getLastD 0)
  let roc_score := normalize_linear roc20 (-(10/100)) (10/100)
  let ema12 := ema (lastN 60 prices) 12
  let ema26 := ema (lastN 60 prices) 26
  let macd_like := pct_change ema26 ema12
  let macd_score := normalize_linear macd_like (-(3/100)) (3/100)
  clamp ((40/100) * rsi_score + (40/100) * roc_score + (20/100) * macd_score)

/-- Python _risk_subscore: (clamped score, raw volatility, raw max
drawdown). The log returns use Real.log; the drawdown is rational. -/
noncomputable def risk_subscore (prices : List ℚ) : ℝ × ℝ × ℚ :=
  let rets : List ℝ := (prices.zip prices.tail).map (fun p => Real.log ((p.2 : ℝ) / (p.1 : ℝ)))
  let vol := stdev rets
  let mdd := max_drawdown (lastN 120 prices)
  let vol_score := 1 - normalize_linear vol (8/1000) (30/1000)
  let dd_score : ℚ := 1 - normalize_linear mdd (5/100) (35/100)
  (clamp ((55/100) * vol_score + (45/100) * (dd_score : ℝ)), vol, mdd)

/-- Python _participation_subscore. -/
def participation_subscore (prices volumes : List ℚ) : ℚ :=
  if volumes = [] then 1/2
  else
    let n := min 20 (prices.length - 1)
    if n ≤ 5 then 1/2
    else
      let window := lastN (n + 1) prices
      let pairs := window.zip window.tail
      let pv := pairs.zip (lastN n volumes)
      let up_vol := ((pv.filter (fun x => x.1.1 ≤ x.1.2)).map (fun x => x.2)).sum
      let down_vol := ((pv.filter (fun x => x.1.2 < x.1.1)).map (fun x => x.2)).sum
      let total := up_vol + down_vol
      let up_ratio := if 0 < total then up_vol / total else 1/2
      let v_now := volumes.getLastD 0
      let v_avg := mean (lastN (n + 1) volumes)
      let v_rel := if 0 < v_avg then v_now / v_avg else 1
      let v_score := normalize_linear v_rel (7/10) (15/10)
      clamp ((70/100) * up_ratio + (30/100) * v_score)

/-- The dict returned by _compute_components. -/
structure Components where
  label : String
  score : ℤ
  struct : ℚ
  momentum : ℚ
  risk : ℝ
  participation : ℚ
  vol : ℝ
  max_drawdown : ℚ
  has_volume : Bool

/-- The fixed neutral result for insufficient data. -/
noncomputable def neutralComponents : Components :=
  { label := "Sideways", score := 50, struct := 1/2, momentum := 1/2, risk := 1/2,
    participation := 1/2, vol := 0, max_drawdown := 0, has_volume := false }

/-- The extracted price series after the internal 200-day truncation. -/
def truncPrices (ph : List Item) : List ℚ :=
  let ps := (extract_series ph).1
  if HEALTH_WINDOW_DAYS < ps.length then lastN HEALTH_WINDOW_DAYS ps else ps

/-- The extracted volume series after the internal 200-day truncation. -/
def truncVolumes (ph : List Item) : Option (List ℚ) :=
  if HEALTH_WINDOW_DAYS < (extract_series ph).1.length then
    (extract_series ph).2.map (lastN HEALTH_WINDOW_DAYS)
  else (extract_series ph).2

/-- s_part in _compute_components: participation when volumes are present,
otherwise the neutral 0.5 (the subscore itself returns 0.5 on an empty
volume list, matching the truthiness test in the source). -/
def sPart (prices : List ℚ) (volumes : Option (List ℚ)) : ℚ :=
  match volumes with
  | some vs => participation_subscore prices vs
  | none => 1/2

/-- blended in _compute_components. -/
noncomputable def blendedOf (prices : List ℚ) (volumes : Option (List ℚ)) : ℝ :=
  clamp ((35/100) * ((structure_subscore prices : ℚ) : ℝ)
    + (25/100) * ((momentum_subscore prices : ℚ) : ℝ)
    + (20/100) * (risk_subscore prices).1
    + (20/100) * ((sPart prices volumes : ℚ) : ℝ))

/-- curved in _compute_components: the logistic curve. -/
noncomputable def curvedOf (b : ℝ) : ℝ := 1 / (1 + Real.exp (-6 * (b - 1/2)))

/-- score in _compute_components: round the curved blend, cap by risk. -/
noncomputable def scoreOf (prices : List ℚ) (volumes : Option (List ℚ)) : ℤ :=
  min (rndE (100 * curvedOf (blendedOf prices volumes)))
    (rndE ((30 : ℝ) + 70 * (risk_subscore prices).1))

/-- label in _compute_components. -/
noncomputable def labelOf (prices : List ℚ) (volumes : Option (List ℚ)) : String :=
  if 60 ≤ scoreOf prices volumes ∧ (55/100 : ℚ) ≤ structure_subscore prices then "Uptrend"
  else if scoreOf prices volumes ≤ 40 ∧ structure_subscore prices ≤ (45/100 : ℚ) then "Downtrend"
  else "Sideways"

/-- bool(volumes) in _compute_components. -/
def hasVolumeOf : Option (List ℚ) → Bool
  | some vs => !vs.isEmpty
  | none => false

/-- The non-neutral branch of _compute_components, applied to the already
truncated series. -/
noncomputable def componentsOf (prices : List ℚ) (volumes : Option (List ℚ)) : Components :=
  { label := labelOf prices volumes
    score := scoreOf prices volumes
    struct := round3 (structure_subscore prices)
    momentum := round3 (momentum_subscore prices)
    risk := round3 (risk_subscore prices).1
    participation := round3 (sPart prices volumes)
    vol := round4 (risk_subscore prices).2.1
    max_drawdown := round4 (risk_subscore prices).2.2
    has_volume := hasVolumeOf volumes }

/-- Python _compute_components. -/
noncomputable def compute_components (ph : List Item) : Components :=
  if (extract_series ph).1.length < 10 then neutralComponents
  else componentsOf (truncPrices ph) (truncVolumes ph)

/-- The recent_deltas loop of the trend-pressure computation: offsets
i = 1..14, stopping as soon as the further-truncated window would drop
below 30 points. -/
def recentDeltasAux (prices : List ℚ) : ℕ → ℕ → List ℚ
  | _, 0 => []
  | i, fuel + 1 =>
      if prices.length < i + 7 + 30 then []
      else (momentum_subscore (dropLastN i prices)
            - momentum_subscore (dropLastN (i + 7) prices))
        :: recentDeltasAux prices (i + 1) fuel

def recentDeltas (prices : List ℚ) : List ℚ := recentDeltasAux prices 1 14

/-- The momentum_decay (trend pressure) computation of
calculate_momentum_with_delta; LOOKBACK_DAYS = 7, PRESSURE_VOL_WINDOW = 14,
and the computation runs only when the series has at least 7+14+20 = 41
points. -/
noncomputable def momentumDecayOf (prices : List ℚ) (label : String) (score : ℤ) : String :=
  if 41 ≤ prices.length then
    let raw_delta : ℚ := momentum_subscore prices - momentum_subscore (dropLastN 7 prices)
    let recent := recentDeltas prices
    let mom_vol0 : ℝ := if 5 ≤ recent.length then stdev (recent.map (fun q => (q : ℝ))) else 1/100
    let mom_vol : ℝ := if mom_vol0 ≤ 0 then 1/100 else mom_vol0
    let z0 : ℝ := (raw_delta : ℝ) / mom_vol
    let z : ℝ :=
      if label = "Sideways" then z0 * (125/100)
      else if label = "Uptrend" ∧ 70 < score then z0 * (115/100)
      else z0
    if z ≤ -(125/100 : ℝ) then "Elevated"
    else if z ≤ -(60/100 : ℝ) then "Easing"
    else "Stable"
  else "Stable"

/-- The components sub-dict of the result of calculate_momentum_with_delta:
subscores, raw volatility and raw max drawdown. -/
structure ComponentsOut where
  struct : ℚ
  momentum : ℚ
  risk : ℝ
  participation : ℚ
  vol : ℝ
  max_drawdown : ℚ

/-- The dict returned by calculate_momentum_with_delta. -/
structure CalcResult where
  label : String
  score : ℤ
  delta_since_close : Option ℤ
  momentum_decay : String
  components : ComponentsOut

/-- Python calculate_momentum_with_delta: the current components, the
delta against the series with its last point removed (input length ≥ 11),
and the trend-pressure label computed on the full extracted series. -/
noncomputable def calculate_momentum_with_delta (ph : List Item) : CalcResult :=
  let comps_now := compute_components ph
  let delta : Option ℤ :=
    if 11 ≤ ph.length then some (comps_now.score - (compute_components (dropLastN 1 ph)).score)
    else none
  { label := comps_now.label
    score := comps_now.score
    delta_since_close := delta
    momentum_decay := momentumDecayOf (extract_series ph).1 comps_now.label comps_now.score
    components :=
      { struct := comps_now.struct
        momentum := comps_now.momentum
        risk := comps_now.risk
        participation := comps_now.participation
        vol := comps_now.vol
        max_drawdown := comps_now.max_drawdown } }

end Momentum

namespace Momentum

/-! ### Basic bounds for clamp, normalize_linear and the subscores -/

lemma clamp_nonneg {α : Type} [LinearOrderedField α] (x : α) : 0 ≤ clamp x :=
  le_max_left _ _

lemma clamp_le_one {α : Type} [LinearOrderedField α] (x : α) : clamp x ≤ 1 :=
  max_le zero_le_one (min_le_left _ _)

lemma clamp_eq_self {α : Type} [LinearOrderedField α] {x : α} (h0 : 0 ≤ x) (h1 : x ≤ 1) :
    clamp x = x := by
  unfold clamp
  rw [min_eq_right h1, max_eq_right h0]

lemma clamp_mono {α : Type} [LinearOrderedField α] {x y : α} (h : x ≤ y) :
    clamp x ≤ clamp y :=
  max_le_max le_rfl (min_le_min le_rfl h)

lemma normalize_linear_nonneg {α : Type} [LinearOrderedField α] (x x0 x1 : α) :
    0 ≤ normalize_linear x x0 x1 := by
  unfold normalize_linear
  split_ifs
  · norm_num
  · exact clamp_nonneg _

lemma normalize_linear_le_one {α : Type} [LinearOrderedField α] (x x0 x1 : α) :
    normalize_linear x x0 x1 ≤ 1 := by
  unfold normalize_linear
  split_ifs
  · norm_num
  · exact clamp_le_one _

lemma structure_subscore_nonneg (ps : List ℚ) : 0 ≤ structure_subscore ps :=
  clamp_nonneg _

lemma structure_subscore_le_one (ps : List ℚ) : structure_subscore ps ≤ 1 :=
  clamp_le_one _

lemma momentum_subscore_nonneg (ps : List ℚ) : 0 ≤ momentum_subscore ps :=
  clamp_nonneg _

lemma momentum_subscore_le_one (ps : List ℚ) : momentum_subscore ps ≤ 1 :=
  clamp_le_one _

lemma participation_subscore_nonneg (ps vs : List ℚ) : 0 ≤ participation_subscore ps vs := by
  unfold participation_subscore
  repeat' split_ifs <;> first | exact clamp_nonneg _ | norm_num

lemma participation_subscore_le_one (ps vs : List ℚ) : participation_subscore ps vs ≤ 1 := by
  unfold participation_subscore
  repeat' split_ifs <;> first | exact clamp_le_one _ | norm_num

lemma sPart_nonneg (ps : List ℚ) (vs : Option (List ℚ)) : 0 ≤ sPart ps vs := by
  cases vs with
  | none => norm_num [sPart]
  | some l => exact participation_subscore_nonneg ps l

lemma sPart_le_one (ps : List ℚ) (vs : Option (List ℚ)) : sPart ps vs ≤ 1 := by
  cases vs with
  | none => norm_num [sPart]
  | some l => exact participation_subscore_le_one ps l

lemma risk_subscore_fst_nonneg (ps : List ℚ) : 0 ≤ (risk_subscore ps).1 := by
  unfold risk_subscore
  exact clamp_nonneg _

lemma risk_subscore_fst_le_one (ps : List ℚ) : (risk_subscore ps).1 ≤ 1 := by
  unfold risk_subscore
  exact clamp_le_one _

lemma blendedOf_nonneg (ps : List ℚ) (vs : Option (List ℚ)) : 0 ≤ blendedOf ps vs :=
  clamp_nonneg _

lemma blendedOf_le_one (ps : List ℚ) (vs : Option (List ℚ)) : blendedOf ps vs ≤ 1 :=
  clamp_le_one _

/-! ### Rounding: Python round() is ties-to-even -/

lemma le_rndE_of_half_lt {α : Type} [LinearOrderedField α] [FloorRing α] (k : ℤ) (x : α)
    (h : (k : α) + 1/2 < x) : k + 1 ≤ rndE x := by
  unfold rndE
  have hfl : (⌊x⌋ : α) + Int.fract x = x := Int.floor_add_fract x
  split_ifs with hf he
  · rw [hf] at hfl
    have hc : (k : α) < (⌊x⌋ : α) := by linarith
    have hk : k < ⌊x⌋ := by exact_mod_cast hc
    omega
  · rw [hf] at hfl
    have hc : (k : α) < (⌊x⌋ : α) := by linarith
    have hk : k < ⌊x⌋ := by exact_mod_cast hc
    omega
  · rw [round_eq]
    rw [Int.le_floor]
    push_cast
    linarith

lemma rndE_le_of_lt_half {α : Type} [LinearOrderedField α] [FloorRing α] (k : ℤ) (x : α)
    (h : x < (k : α) + 1/2) : rndE x ≤ k := by
  unfold rndE
  have hfl : (⌊x⌋ : α) + Int.fract x = x := Int.floor_add_fract x
  split_ifs with hf he
  · rw [hf] at hfl
    have hc : (⌊x⌋ : α) < (k : α) := by linarith
    have hk : ⌊x⌋ < k := by exact_mod_cast hc
    omega
  · rw [hf] at hfl
    have hc : (⌊x⌋ : α) < (k : α) := by linarith
    have hk : ⌊x⌋ < k := by exact_mod_cast hc
    omega
  · rw [round_eq]
    have hfloor : ⌊x + 1/2⌋ < k + 1 := by
      rw [Int.floor_lt]
      push_cast
      linarith
    omega

lemma le_rndE {α : Type} [LinearOrderedField α] [FloorRing α] (k : ℤ) (x : α)
    (h : (k : α) ≤ x) : k ≤ rndE x := by
  have := le_rndE_of_half_lt (k - 1) x (by push_cast; linarith)
  omega

lemma rndE_le {α : Type} [LinearOrderedField α] [FloorRing α] (k : ℤ) (x : α)
    (h : x ≤ (k : α)) : rndE x ≤ k :=
  rndE_le_of_lt_half k x (by linarith)

lemma rndE_intCast {α : Type} [LinearOrderedField α] [FloorRing α] (k : ℤ) :
    rndE (k : α) = k :=
  le_antisymm (rndE_le k _ le_rfl) (le_rndE k _ le_rfl)

lemma round3_nonneg {α : Type} [LinearOrderedField α] [FloorRing α] {x : α} (h : 0 ≤ x) :
    0 ≤ round3 x := by
  unfold round3
  have : (0 : ℤ) ≤ rndE (1000 * x) := le_rndE 0 _ (by push_cast; linarith)
  positivity

lemma round3_le_one {α : Type} [LinearOrderedField α] [FloorRing α] {x : α} (h : x ≤ 1) :
    round3 x ≤ 1 := by
  unfold round3
  have h1 : rndE (1000 * x) ≤ 1000 := rndE_le 1000 _ (by push_cast; linarith)
  have h2 : ((rndE (1000 * x) : ℤ) : α) ≤ (1000 : α) := by exact_mod_cast h1
  linarith

lemma le_round3 {α : Type} [LinearOrderedField α] [FloorRing α] (c : ℤ) {x : α}
    (h : ((c : α)) / 1000 ≤ x) : ((c : α)) / 1000 ≤ round3 x := by
  unfold round3
  have h1 : (c : ℤ) ≤ rndE (1000 * x) := le_rndE c _ (by linarith)
  have h2 : ((c : ℤ) : α) ≤ ((rndE (1000 * x) : ℤ) : α) := by exact_mod_cast h1
  linarith

lemma round3_le {α : Type} [LinearOrderedField α] [FloorRing α] (c : ℤ) {x : α}
    (h : x ≤ ((c : α)) / 1000) : round3 x ≤ ((c : α)) / 1000 := by
  unfold round3
  have h1 : rndE (1000 * x) ≤ (c : ℤ) := rndE_le c _ (by linarith)
  have h2 : ((rndE (1000 * x) : ℤ) : α) ≤ ((c : ℤ) : α) := by exact_mod_cast h1
  linarith

/-! ### Bounds on the logistic score -/

lemma exp_three_lt : Real.exp 3 < 2009/100 := by
  have h1 : Real.exp 1 < 2.7182818286 := Real.exp_one_lt_d9
  have h3 : Real.exp 3 = Real.exp 1 ^ 3 := by
    rw [show (3 : ℝ) = ((3 : ℕ) : ℝ) * 1 by norm_num, Real.exp_nat_mul]
  rw [h3]
  have h0 : (0 : ℝ) ≤ Real.exp 1 := (Real.exp_pos 1).le
  calc Real.exp 1 ^ 3 < 2.7182818286 ^ 3 := by
        exact pow_lt_pow_left₀ h1 h0 (by norm_num)
    _ < 2009/100 := by norm_num

lemma curvedOf_pos (b : ℝ) : 0 < curvedOf b := by
  unfold curvedOf
  have := Real.exp_pos (-6 * (b - 1/2))
  positivity

lemma curvedOf_lt_one (b : ℝ) : curvedOf b < 1 := by
  unfold curvedOf
  have hE := Real.exp_pos (-6 * (b - 1/2))
  rw [div_lt_one (by linarith)]
  linarith

lemma curvedOf_ge (b : ℝ) (hb : 0 ≤ b) : 9/200 < curvedOf b := by
  unfold curvedOf
  have hE : Real.exp (-6 * (b - 1/2)) ≤ Real.exp 3 := by
    apply Real.exp_le_exp.mpr
    linarith
  have h3 := exp_three_lt
  have hEpos := Real.exp_pos (-6 * (b - 1/2))
  rw [lt_div_iff₀ (by linarith)]
  nlinarith

lemma curvedOf_le (b : ℝ) (hb : b ≤ 1) : curvedOf b < 191/200 := by
  unfold curvedOf
  have hE : Real.exp (-3) ≤ Real.exp (-6 * (b - 1/2)) := by
    apply Real.exp_le_exp.mpr
    linarith
  have hinv : (100/2009 : ℝ) < Real.exp (-3) := by
    rw [Real.exp_neg]
    calc (100/2009 : ℝ) = ((2009/100 : ℝ))⁻¹ := by norm_num
      _ < (Real.exp 3)⁻¹ := inv_lt_inv_of_lt (Real.exp_pos 3) exp_three_lt
  have hEpos := Real.exp_pos (-6 * (b - 1/2))
  rw [div_lt_iff₀ (by linarith)]
  nlinarith

lemma scoreOf_nonneg (ps : List ℚ) (vs : Option (List ℚ)) : 0 ≤ scoreOf ps vs := by
  unfold scoreOf
  apply le_min
  · exact le_rndE 0 _ (by
      have := curvedOf_pos (blendedOf ps vs)
      push_cast
      nlinarith)
  · exact le_rndE 0 _ (by
      have := risk_subscore_fst_nonneg ps
      push_cast
      linarith)

lemma scoreOf_le_100 (ps : List ℚ) (vs : Option (List ℚ)) : scoreOf ps vs ≤ 100 := by
  unfold scoreOf
  apply min_le_of_left_le
  exact rndE_le 100 _ (by
    have := curvedOf_lt_one (blendedOf ps vs)
    push_cast
    nlinarith)

lemma scoreOf_ge_5 (ps : List ℚ) (vs : Option (List ℚ)) : 5 ≤ scoreOf ps vs := by
  unfold scoreOf
  apply le_min
  · have h := curvedOf_ge (blendedOf ps vs) (blendedOf_nonneg ps vs)
    have : ((4 : ℤ) : ℝ) + 1/2 < 100 * curvedOf (blendedOf ps vs) := by
      push_cast
      nlinarith
    have := le_rndE_of_half_lt 4 _ this
    omega
  · have h := risk_subscore_fst_nonneg ps
    have : ((30 : ℤ) : ℝ) ≤ (30 : ℝ) + 70 * (risk_subscore ps).1 := by push_cast; linarith
    have := le_rndE 30 _ this
    omega

lemma scoreOf_le_95 (ps : List ℚ) (vs : Option (List ℚ)) : scoreOf ps vs ≤ 95 := by
  unfold scoreOf
  apply min_le_of_left_le
  have h := curvedOf_le (blendedOf ps vs) (blendedOf_le_one ps vs)
  apply rndE_le_of_lt_half 95
  push_cast
  nlinarith

lemma scoreOf_le_cap (ps : List ℚ) (vs : Option (List ℚ)) :
    scoreOf ps vs ≤ rndE ((30 : ℝ) + 70 * (risk_subscore ps).1) :=
  min_le_right _ _

/-! ### Projections of the top-level result onto the components -/

lemma calc_label (ph : List Item) :
    (calculate_momentum_with_delta ph).label = (compute_components ph).label := rfl

lemma calc_score (ph : List Item) :
    (calculate_momentum_with_delta ph).score = (compute_components ph).score := rfl

lemma calc_struct (ph : List Item) :
    (calculate_momentum_with_delta ph).components.struct = (compute_components ph).struct := rfl

lemma calc_momentum (ph : List Item) :
    (calculate_momentum_with_delta ph).components.momentum
      = (compute_components ph).momentum := rfl

lemma calc_risk (ph : List Item) :
    (calculate_momentum_with_delta ph).components.risk = (compute_components ph).risk := rfl

lemma calc_participation (ph : List Item) :
    (calculate_momentum_with_delta ph).components.participation
      = (compute_components ph).participation := rfl

lemma calc_decay (ph : List Item) :
    (calculate_momentum_with_delta ph).momentum_decay
      = momentumDecayOf (extract_series ph).1 (compute_components ph).label
          (compute_components ph).score := rfl

lemma compute_components_neutral {ph : List Item}
    (h : (extract_series ph).1.length < 10) :
    compute_components ph = neutralComponents := by
  unfold compute_components
  rw [if_pos h]

lemma compute_components_main {ph : List Item}
    (h : ¬ (extract_series ph).1.length < 10) :
    compute_components ph = componentsOf (truncPrices ph) (truncVolumes ph) := by
  unfold compute_components
  rw [if_neg h]

end Momentum

namespace Momentum

/-! ### Characterization of the extraction loop -/

lemma extract_loop_eq (l : List Item) :
    extract_loop l = (validPrices l, validVols l, l.all recHasVol) := by
  induction l with
  | nil => rfl
  | cons it rest ih =>
    cases it with
    | num x =>
      by_cases hx : 0 < x <;>
        simp [extract_loop, ih, validPrices, validVols, closeOf, volOf, recHasVol,
          List.filterMap_cons, hx]
    | record c v =>
      cases c with
      | none =>
        simp [extract_loop, ih, validPrices, validVols, closeOf, volOf, recHasVol,
          List.filterMap_cons]
      | some cv =>
        cases v with
        | none =>
          by_cases hc : 0 < cv <;>
            simp [extract_loop, ih, validPrices, validVols, closeOf, volOf, recHasVol,
              List.filterMap_cons, hc]
        | some vv =>
          by_cases hc : 0 < cv
          · by_cases hv : 0 ≤ vv <;>
              simp [extract_loop, ih, validPrices, validVols, closeOf, volOf, recHasVol,
                List.filterMap_cons, hc, hv]
          · simp [extract_loop, ih, validPrices, validVols, closeOf, volOf, recHasVol,
              List.filterMap_cons, hc]
    | other =>
      simp [extract_loop, ih, validPrices, validVols, closeOf, volOf, recHasVol,
        List.filterMap_cons]

lemma extract_series_of_lt {ph : List Item} (h : (validPrices ph).length < 10) :
    extract_series ph = ([], none) := by
  unfold extract_series
  rw [extract_loop_eq]
  simp only
  rw [if_pos h]

lemma extract_series_fst {ph : List Item} (h : 10 ≤ (validPrices ph).length) :
    (extract_series ph).1 = validPrices ph := by
  unfold extract_series
  rw [extract_loop_eq]
  simp only
  rw [if_neg (by omega)]
  split_ifs <;> rfl

lemma extract_series_none_of_bad {ph : List Item} (h : 10 ≤ (validPrices ph).length)
    (hbad : ph.all recHasVol = false) :
    extract_series ph = (validPrices ph, none) := by
  unfold extract_series
  rw [extract_loop_eq]
  simp only
  rw [if_neg (by omega), if_pos (Or.inl hbad)]

lemma valid_lengths_of_all {l : List Item} (h : l.all recHasVol = true) :
    (validPrices l).length = l.length ∧ (validVols l).length = l.length := by
  induction l with
  | nil => simp [validPrices, validVols]
  | cons it rest ih =>
    rw [List.all_cons, Bool.and_eq_true] at h
    obtain ⟨h1, h2⟩ := h
    have ih2 := ih h2
    cases it with
    | num x => simp [recHasVol] at h1
    | record c v =>
      cases c with
      | none => simp [recHasVol] at h1
      | some cv =>
        cases v with
        | none => simp [recHasVol] at h1
        | some vv =>
          simp only [recHasVol, Bool.and_eq_true, decide_eq_true_eq] at h1
          have hp : validPrices (Item.record (some cv) (some vv) :: rest)
              = cv :: validPrices rest := by
            simp [validPrices, closeOf, List.filterMap_cons, h1.1]
          have hv : validVols (Item.record (some cv) (some vv) :: rest)
              = vv :: validVols rest := by
            simp [validVols, volOf, List.filterMap_cons, h1.1, h1.2]
          rw [hp, hv]
          simp [ih2.1, ih2.2]
    | other => simp [recHasVol] at h1

lemma extract_series_some_of_all {ph : List Item} (h : 10 ≤ (validPrices ph).length)
    (hall : ph.all recHasVol = true) :
    extract_series ph = (validPrices ph, some (validVols ph)) := by
  unfold extract_series
  rw [extract_loop_eq]
  simp only
  have hlen := valid_lengths_of_all hall
  rw [if_neg (by omega), if_neg]
  push_neg
  exact ⟨by simp [hall], by omega⟩

lemma compute_components_neutral_valid {ph : List Item}
    (h : (validPrices ph).length < 10) :
    compute_components ph = neutralComponents := by
  apply compute_components_neutral
  rw [extract_series_of_lt h]
  norm_num

/-! ### Bounds on all reported fields -/

lemma compute_components_score_nonneg (ph : List Item) :
    0 ≤ (compute_components ph).score := by
  by_cases h : (extract_series ph).1.length < 10
  · rw [compute_components_neutral h]; norm_num [neutralComponents]
  · rw [compute_components_main h]; exact scoreOf_nonneg _ _

lemma compute_components_score_le_100 (ph : List Item) :
    (compute_components ph).score ≤ 100 := by
  by_cases h : (extract_series ph).1.length < 10
  · rw [compute_components_neutral h]; norm_num [neutralComponents]
  · rw [compute_components_main h]; exact scoreOf_le_100 _ _

lemma compute_components_score_range (ph : List Item) :
    5 ≤ (compute_components ph).score ∧ (compute_components ph).score ≤ 95 := by
  by_cases h : (extract_series ph).1.length < 10
  · rw [compute_components_neutral h]; norm_num [neutralComponents]
  · rw [compute_components_main h]; exact ⟨scoreOf_ge_5 _ _, scoreOf_le_95 _ _⟩

lemma compute_components_subscore_bounds (ph : List Item) :
    (0 ≤ (compute_components ph).struct ∧ (compute_components ph).struct ≤ 1)
    ∧ (0 ≤ (compute_components ph).momentum ∧ (compute_components ph).momentum ≤ 1)
    ∧ ((0 : ℝ) ≤ (compute_components ph).risk ∧ (compute_components ph).risk ≤ 1)
    ∧ (0 ≤ (compute_components ph).participation ∧ (compute_components ph).participation ≤ 1) := by
  by_cases h : (extract_series ph).1.length < 10
  · rw [compute_components_neutral h]; norm_num [neutralComponents]
  · rw [compute_components_main h]
    unfold componentsOf
    refine ⟨⟨?_, ?_⟩, ⟨?_, ?_⟩, ⟨?_, ?_⟩, ⟨?_, ?_⟩⟩
    · exact round3_nonneg (structure_subscore_nonneg _)
    · exact round3_le_one (structure_subscore_le_one _)
    · exact round3_nonneg (momentum_subscore_nonneg _)
    · exact round3_le_one (momentum_subscore_le_one _)
    · exact round3_nonneg (risk_subscore_fst_nonneg _)
    · exact round3_le_one (risk_subscore_fst_le_one _)
    · exact round3_nonneg (sPart_nonneg _ _)
    · exact round3_le_one (sPart_le_one _ _)

end Momentum

namespace Momentum

@[simp] lemma componentsOf_label (ps : List ℚ) (vs : Option (List ℚ)) :
    (componentsOf ps vs).label = labelOf ps vs := rfl

@[simp] lemma componentsOf_score (ps : List ℚ) (vs : Option (List ℚ)) :
    (componentsOf ps vs).score = scoreOf ps vs := rfl

@[simp] lemma componentsOf_struct (ps : List ℚ) (vs : Option (List ℚ)) :
    (componentsOf ps vs).struct = round3 (structure_subscore ps) := rfl

@[simp] lemma componentsOf_momentum (ps : List ℚ) (vs : Option (List ℚ)) :
    (componentsOf ps vs).momentum = round3 (momentum_subscore ps) := rfl

@[simp] lemma componentsOf_risk (ps : List ℚ) (vs : Option (List ℚ)) :
    (componentsOf ps vs).risk = round3 (risk_subscore ps).1 := rfl

@[simp] lemma componentsOf_participation (ps : List ℚ) (vs : Option (List ℚ)) :
    (componentsOf ps vs).participation = round3 (sPart ps vs) := rfl

@[simp] lemma componentsOf_has_volume (ps : List ℚ) (vs : Option (List ℚ)) :
    (componentsOf ps vs).has_volume = hasVolumeOf vs := rfl

lemma componentsOf_label_cases (ps : List ℚ) (vs : Option (List ℚ)) :
    ((componentsOf ps vs).label = "Uptrend" ∧ 60 ≤ (componentsOf ps vs).score
      ∧ (55/100 : ℚ) ≤ (componentsOf ps vs).struct)
    ∨ ((componentsOf ps vs).label = "Downtrend" ∧ (componentsOf ps vs).score ≤ 40
      ∧ (componentsOf ps vs).struct ≤ (45/100 : ℚ))
    ∨ (componentsOf ps vs).label = "Sideways" := by
  simp only [componentsOf_label, componentsOf_score, componentsOf_struct]
  unfold labelOf
  split_ifs with h1 h2
  · left
    refine ⟨rfl, h1.1, ?_⟩
    have h := le_round3 (α := ℚ) 550 (x := structure_subscore ps) (by push_cast; linarith [h1.2])
    push_cast at h
    linarith
  · right; left
    refine ⟨rfl, h2.1, ?_⟩
    have h := round3_le (α := ℚ) 450 (x := structure_subscore ps) (by push_cast; linarith [h2.2])
    push_cast at h
    linarith
  · right; right; rfl

/-- C1: for every input, the score returned by calculate_momentum_with_delta
is an integer between 0 and 100, and each of the four reported subscores
(structure, momentum, risk, participation) lies in the interval from 0 to 1. -/
theorem C1_score_and_subscores_bounded (ph : List Item) :
    (0 ≤ (calculate_momentum_with_delta ph).score
      ∧ (calculate_momentum_with_delta ph).score ≤ 100)
    ∧ (0 ≤ (calculate_momentum_with_delta ph).components.struct
      ∧ (calculate_momentum_with_delta ph).components.struct ≤ 1)
    ∧ (0 ≤ (calculate_momentum_with_delta ph).components.momentum
      ∧ (calculate_momentum_with_delta ph).components.momentum ≤ 1)
    ∧ ((0 : ℝ) ≤ (calculate_momentum_with_delta ph).components.risk
      ∧ (calculate_momentum_with_delta ph).components.risk ≤ 1)
    ∧ (0 ≤ (calculate_momentum_with_delta ph).components.participation
      ∧ (calculate_momentum_with_delta ph).components.participation ≤ 1) := by
  rw [calc_score, calc_struct, calc_momentum, calc_risk, calc_participation]
  exact ⟨⟨compute_components_score_nonneg ph, compute_components_score_le_100 ph⟩,
    compute_components_subscore_bounds ph⟩

/-- C2: any input with fewer than 10 valid prices (a valid price is a bare
positive number or a record whose close/price is a positive number) yields
the fixed neutral result: label Sideways, score 50, all four subscores 0.5,
and the extractor returns an empty price sequence with absent volumes. -/
theorem C2_insufficient_data (ph : List Item)
    (h : (validPrices ph).length < 10) :
    (calculate_momentum_with_delta ph).label = "Sideways"
    ∧ (calculate_momentum_with_delta ph).score = 50
    ∧ (calculate_momentum_with_delta ph).components.struct = 1/2
    ∧ (calculate_momentum_with_delta ph).components.momentum = 1/2
    ∧ (calculate_momentum_with_delta ph).components.risk = 1/2
    ∧ (calculate_momentum_with_delta ph).components.participation = 1/2
    ∧ extract_series ph = ([], none) := by
  have hn := compute_components_neutral_valid h
  rw [calc_label, calc_score, calc_struct, calc_momentum, calc_risk, calc_participation, hn]
  exact ⟨rfl, rfl, rfl, rfl, rfl, rfl, extract_series_of_lt h⟩

/-- Witness for C2 at the concrete input of a single bare record. -/
theorem C2_insufficient_data_witness :
    (validPrices [Item.num 5]).length < 10
    ∧ ((calculate_momentum_with_delta [Item.num 5]).label = "Sideways"
      ∧ (calculate_momentum_with_delta [Item.num 5]).score = 50
      ∧ (calculate_momentum_with_delta [Item.num 5]).components.struct = 1/2
      ∧ (calculate_momentum_with_delta [Item.num 5]).components.momentum = 1/2
      ∧ (calculate_momentum_with_delta [Item.num 5]).components.risk = 1/2
      ∧ (calculate_momentum_with_delta [Item.num 5]).components.participation = 1/2
      ∧ extract_series [Item.num 5] = ([], none)) :=
  ⟨by norm_num [validPrices, closeOf, List.filterMap_cons],
   C2_insufficient_data [Item.num 5]
     (by norm_num [validPrices, closeOf, List.filterMap_cons])⟩

/-- A concrete input of ten valid bare prices, used by witnesses. -/
def tenNums : List Item :=
  [Item.num 1, Item.num 1, Item.num 1, Item.num 1, Item.num 1,
   Item.num 1, Item.num 1, Item.num 1, Item.num 1, Item.num 1]

lemma tenNums_valid : 10 ≤ (validPrices tenNums).length := by
  norm_num [tenNums, validPrices, closeOf, List.filterMap_cons]

/-- C4: for every input with at least 10 valid prices, the final score is
capped by round(30 + 70 * risk) where risk is the computed risk subscore of
the truncated series; in particular a risk subscore of 0 caps the score
at 30. -/
theorem C4_risk_cap (ph : List Item) (h : 10 ≤ (validPrices ph).length) :
    (calculate_momentum_with_delta ph).score
      ≤ rndE ((30 : ℝ) + 70 * (risk_subscore (truncPrices ph)).1)
    ∧ ((risk_subscore (truncPrices ph)).1 = 0
      → (calculate_momentum_with_delta ph).score ≤ 30) := by
  rw [calc_score]
  have hnn : ¬ (extract_series ph).1.length < 10 := by
    rw [extract_series_fst h]; omega
  rw [compute_components_main hnn, componentsOf_score]
  constructor
  · exact scoreOf_le_cap _ _
  · intro h0
    have hcap := scoreOf_le_cap (truncPrices ph) (truncVolumes ph)
    rw [h0] at hcap
    have h30 : ((30 : ℝ) + 70 * 0) = ((30 : ℤ) : ℝ) := by norm_num
    rw [h30, rndE_intCast] at hcap
    exact hcap

/-- Witness for C4 at ten valid bare prices. -/
theorem C4_risk_cap_witness :
    10 ≤ (validPrices tenNums).length
    ∧ ((calculate_momentum_with_delta tenNums).score
        ≤ rndE ((30 : ℝ) + 70 * (risk_subscore (truncPrices tenNums)).1)
      ∧ ((risk_subscore (truncPrices tenNums)).1 = 0
        → (calculate_momentum_with_delta tenNums).score ≤ 30)) :=
  ⟨tenNums_valid, C4_risk_cap tenNums tenNums_valid⟩

/-- C5: the label returned by calculate_momentum_with_delta is consistent
with the score and the reported structure subscore: Uptrend forces score
at least 60 and structure at least 0.55, Downtrend forces score at most 40
and structure at most 0.45, and in every other case the label is
Sideways. -/
theorem C5_label_consistency (ph : List Item) :
    ((calculate_momentum_with_delta ph).label = "Uptrend"
      ∧ 60 ≤ (calculate_momentum_with_delta ph).score
      ∧ (55/100 : ℚ) ≤ (calculate_momentum_with_delta ph).components.struct)
    ∨ ((calculate_momentum_with_delta ph).label = "Downtrend"
      ∧ (calculate_momentum_with_delta ph).score ≤ 40
      ∧ (calculate_momentum_with_delta ph).components.struct ≤ (45/100 : ℚ))
    ∨ (calculate_momentum_with_delta ph).label = "Sideways" := by
  rw [calc_label, calc_score, calc_struct]
  by_cases h : (extract_series ph).1.length < 10
  · rw [compute_components_neutral h]
    right; right; rfl
  · rw [compute_components_main h]
    exact componentsOf_label_cases _ _

/-- C7: when the extracted valid-price series has fewer than 41 points the
trend-pressure computation does not run and momentum_decay is the
insufficient-data default Stable. -/
theorem C7_decay_stable (ph : List Item)
    (h : (extract_series ph).1.length < 41) :
    (calculate_momentum_with_delta ph).momentum_decay = "Stable" := by
  rw [calc_decay]
  unfold momentumDecayOf
  rw [if_neg (by omega)]

/-- Witness for C7 at the empty input. -/
theorem C7_decay_stable_witness :
    (extract_series []).1.length < 41
    ∧ (calculate_momentum_with_delta []).momentum_decay = "Stable" :=
  ⟨by norm_num [extract_series, extract_loop],
   C7_decay_stable [] (by norm_num [extract_series, extract_loop])⟩

/-- C10: for every input the score lies in the tighter range 5 to 95: the
neutral fallback is 50 and otherwise the logistic curve over the clamped
blend keeps the rounded value between 5 and 95, while the risk cap is at
least 30. -/
theorem C10_score_5_95 (ph : List Item) :
    5 ≤ (calculate_momentum_with_delta ph).score
    ∧ (calculate_momentum_with_delta ph).score ≤ 95 := by
  rw [calc_score]
  exact compute_components_score_range ph

end Momentum

namespace Momentum

/-! ### C6: all-or-nothing volume handling -/

lemma round3_half : round3 ((1 : ℚ)/2) = 1/2 := by
  unfold round3
  have h : (1000 : ℚ) * (1/2) = ((500 : ℤ) : ℚ) := by norm_num
  rw [h, rndE_intCast]
  norm_num

lemma truncVolumes_none {ph : List Item} (h : (extract_series ph).2 = none) :
    truncVolumes ph = none := by
  unfold truncVolumes
  rw [h]
  split_ifs <;> rfl

/-- C6: if an input has at least 10 valid prices and exactly one of its
records lacks a valid non-negative volume (or is otherwise malformed) while
every other record carries one, the extractor discards the volumes for the
whole series, the reported participation subscore is exactly 0.5, and the
prices of all valid records are still kept. -/
theorem C6_volume_all_or_nothing (ph : List Item)
    (h10 : 10 ≤ (validPrices ph).length)
    (hone : ph.countP (fun it => !(recHasVol it)) = 1) :
    (extract_series ph).2 = none
    ∧ (calculate_momentum_with_delta ph).components.participation = 1/2
    ∧ (extract_series ph).1 = validPrices ph := by
  have hbad : ph.all recHasVol = false := by
    by_contra hc
    have hall : ph.all recHasVol = true := by
      cases hb : ph.all recHasVol
      · exact absurd hb hc
      · rfl
    have h0 : ph.countP (fun it => !(recHasVol it)) = 0 := by
      rw [List.countP_eq_zero]
      intro a ha
      have := List.all_eq_true.mp hall a ha
      simp [this]
    omega
  have hex := extract_series_none_of_bad h10 hbad
  have h2 : (extract_series ph).2 = none := by rw [hex]
  refine ⟨h2, ?_, by rw [hex]⟩
  rw [calc_participation]
  have hnn : ¬ (extract_series ph).1.length < 10 := by
    rw [extract_series_fst h10]; omega
  rw [compute_components_main hnn, componentsOf_participation, truncVolumes_none h2]
  show round3 ((1 : ℚ)/2) = 1/2
  exact round3_half

/-- Eleven records, ten with a valid volume and one without. -/
def elevenRecs : List Item :=
  [Item.record (some 1) (some 1), Item.record (some 1) (some 1),
   Item.record (some 1) (some 1), Item.record (some 1) (some 1),
   Item.record (some 1) (some 1), Item.record (some 1) (some 1),
   Item.record (some 1) (some 1), Item.record (some 1) (some 1),
   Item.record (some 1) (some 1), Item.record (some 1) (some 1),
   Item.record (some 1) none]

lemma elevenRecs_valid : 10 ≤ (validPrices elevenRecs).length := by
  norm_num [elevenRecs, validPrices, closeOf, List.filterMap_cons]

lemma elevenRecs_one_bad : elevenRecs.countP (fun it => !(recHasVol it)) = 1 := by
  norm_num [elevenRecs, List.countP_cons, recHasVol]

/-- Witness for C6 at a concrete input with exactly one volume-less record. -/
theorem C6_volume_all_or_nothing_witness :
    (10 ≤ (validPrices elevenRecs).length
      ∧ elevenRecs.countP (fun it => !(recHasVol it)) = 1)
    ∧ ((extract_series elevenRecs).2 = none
      ∧ (calculate_momentum_with_delta elevenRecs).components.participation = 1/2
      ∧ (extract_series elevenRecs).1 = validPrices elevenRecs) :=
  ⟨⟨elevenRecs_valid, elevenRecs_one_bad⟩,
   C6_volume_all_or_nothing elevenRecs elevenRecs_valid elevenRecs_one_bad⟩

end Momentum

namespace Momentum

/-! ### List toolbox for monotone price series -/

lemma foldl_min_le_init (x : ℚ) (xs : List ℚ) : xs.foldl min x ≤ x := by
  induction xs generalizing x with
  | nil => simp
  | cons y t ih => exact le_trans (ih (min x y)) (min_le_left x y)

lemma le_foldl_max_init (x : ℚ) (xs : List ℚ) : x ≤ xs.foldl max x := by
  induction xs generalizing x with
  | nil => simp
  | cons y t ih => exact le_trans (le_max_left x y) (ih (max x y))

lemma le_foldl_max_of_mem {y : ℚ} :
    ∀ (xs : List ℚ) (x : ℚ), y ∈ xs → y ≤ xs.foldl max x := by
  intro xs
  induction xs with
  | nil => intro x h; cases h
  | cons z t ih =>
    intro x h
    rcases List.mem_cons.mp h with h1 | hm
    · subst h1
      exact le_trans (le_max_right x y) (le_foldl_max_init _ t)
    · exact ih (max x z) hm

lemma foldl_max_le {c x : ℚ} {xs : List ℚ} (hx : x ≤ c) (h : ∀ y ∈ xs, y ≤ c) :
    xs.foldl max x ≤ c := by
  induction xs generalizing x with
  | nil => simpa
  | cons z t ih =>
    exact ih (max_le hx (h z (List.mem_cons_self z t)))
      (fun y hy => h y (List.mem_cons_of_mem _ hy))

lemma listMax_le {c : ℚ} {l : List ℚ} (hne : l ≠ []) (h : ∀ y ∈ l, y ≤ c) :
    listMax l ≤ c := by
  cases l with
  | nil => exact absurd rfl hne
  | cons x t =>
    show t.foldl max x ≤ c
    exact foldl_max_le (h x (List.mem_cons_self x t))
      (fun y hy => h y (List.mem_cons_of_mem _ hy))

lemma le_listMax {y : ℚ} {l : List ℚ} (h : y ∈ l) : y ≤ listMax l := by
  cases l with
  | nil => cases h
  | cons x t =>
    show y ≤ t.foldl max x
    rcases List.mem_cons.mp h with h1 | hm
    · subst h1
      exact le_foldl_max_init y t
    · exact le_foldl_max_of_mem t x hm

lemma getLastD_mem : ∀ (l : List ℚ), l ≠ [] → ∀ (d : ℚ), l.getLastD d ∈ l
  | [], h, _ => absurd rfl h
  | [x], _, d => by simp [List.getLastD]
  | x :: y :: t, _, d => by
      rw [List.getLastD_cons]
      exact List.mem_cons_of_mem _ (getLastD_mem (y :: t) (by simp) x)

lemma getLastD_irrel : ∀ (l : List ℚ), l ≠ [] → ∀ (d d' : ℚ), l.getLastD d = l.getLastD d'
  | [], h, _, _ => absurd rfl h
  | _ :: _, _, _, _ => by rw [List.getLastD_cons, List.getLastD_cons]

lemma le_getLastD_of_pairwise :
    ∀ (l : List ℚ), List.Pairwise (· ≤ ·) l → ∀ (x : ℚ), x ∈ l → ∀ (d : ℚ),
      x ≤ l.getLastD d := by
  intro l
  induction l with
  | nil => intro _ x hx; cases hx
  | cons a t ih =>
    intro hp x hx d
    rw [List.getLastD_cons]
    rcases List.mem_cons.mp hx with h1 | hm
    · subst h1
      cases t with
      | nil => simp [List.getLastD]
      | cons b u =>
        have hmem := getLastD_mem (b :: u) (by simp) x
        exact (List.pairwise_cons.mp hp).1 _ hmem
    · exact ih (List.pairwise_cons.mp hp).2 x hm a

lemma headD_le_of_pairwise {l : List ℚ} (hp : List.Pairwise (· < ·) l) (d : ℚ) :
    ∀ y ∈ l, l.headD d ≤ y := by
  cases l with
  | nil => intro y hy; cases hy
  | cons a t =>
    intro y hy
    rcases List.mem_cons.mp hy with rfl | hm
    · simp
    · simpa using ((List.pairwise_cons.mp hp).1 y hm).le

lemma headD_mem {l : List ℚ} (h : l ≠ []) (d : ℚ) : l.headD d ∈ l := by
  cases l with
  | nil => exact absurd rfl h
  | cons a t => simp

lemma mean_eq {α : Type} [DivisionRing α] {l : List α} (h : l ≠ []) :
    mean l = l.sum / (l.length : α) := by
  cases l with
  | nil => exact absurd rfl h
  | cons a t => rfl

lemma length_pos_q {l : List ℚ} (h : l ≠ []) : (0 : ℚ) < (l.length : ℚ) := by
  have := List.length_pos.mpr h
  exact_mod_cast this

lemma mean_le {l : List ℚ} {c : ℚ} (hne : l ≠ []) (h : ∀ x ∈ l, x ≤ c) :
    mean l ≤ c := by
  rw [mean_eq hne]
  have hsum : l.sum ≤ l.length • c := List.sum_le_card_nsmul _ _ h
  rw [nsmul_eq_mul] at hsum
  rw [div_le_iff₀ (length_pos_q hne)]
  linarith

lemma le_mean {l : List ℚ} {c : ℚ} (hne : l ≠ []) (h : ∀ x ∈ l, c ≤ x) :
    c ≤ mean l := by
  rw [mean_eq hne]
  have hsum : l.length • c ≤ l.sum := List.card_nsmul_le_sum _ _ h
  rw [nsmul_eq_mul] at hsum
  rw [le_div_iff₀ (length_pos_q hne)]
  linarith

lemma mean_append_le {a b : List ℚ} {c : ℚ} (hb : b ≠ [])
    (ha : ∀ x ∈ a, x ≤ c) (hbc : ∀ y ∈ b, c ≤ y) :
    mean (a ++ b) ≤ mean b := by
  cases a with
  | nil => simp
  | cons a0 a' =>
    have hAne : (a0 :: a') ≠ [] := by simp
    have hSa : (a0 :: a').sum ≤ ((a0 :: a').length : ℚ) * c := by
      have := List.sum_le_card_nsmul (a0 :: a') c ha
      rwa [nsmul_eq_mul] at this
    have hSb : (b.length : ℚ) * c ≤ b.sum := by
      have := List.card_nsmul_le_sum b c hbc
      rwa [nsmul_eq_mul] at this
    have habne : ((a0 :: a') ++ b) ≠ [] := by simp
    rw [mean_eq habne, mean_eq hb]
    have hbl : (0 : ℚ) < (b.length : ℚ) := length_pos_q hb
    have hal : (0 : ℚ) < ((a0 :: a').length : ℚ) := length_pos_q hAne
    have hablen : (((a0 :: a') ++ b).length : ℚ)
        = ((a0 :: a').length : ℚ) + (b.length : ℚ) := by
      rw [List.length_append]; push_cast; ring
    have habsum : ((a0 :: a') ++ b).sum = (a0 :: a').sum + b.sum := List.sum_append
    rw [hablen, habsum]
    rw [div_le_div_iff₀ (by linarith) hbl]
    nlinarith [mul_le_mul_of_nonneg_right hSa hbl.le,
      mul_le_mul_of_nonneg_left hSb hal.le]

lemma lastN_length {α : Type} (n : ℕ) (l : List α) :
    (lastN n l).length = l.length - (l.length - n) := by
  simp [lastN]

lemma lastN_subset {α : Type} (n : ℕ) (l : List α) : lastN n l ⊆ l :=
  List.drop_subset _ _

lemma lastN_ne_nil {α : Type} {n : ℕ} {l : List α} (hn : 0 < n) (hl : l ≠ []) :
    lastN n l ≠ [] := by
  have h0 : 0 < l.length := List.length_pos.mpr hl
  have : 0 < (lastN n l).length := by rw [lastN_length]; omega
  exact List.length_pos.mp this

lemma getLastD_drop {α : Type} :
    ∀ (l : List α) (k : ℕ), k < l.length → ∀ (d : α),
      (l.drop k).getLastD d = l.getLastD d := by
  intro l
  induction l with
  | nil => intro k hk; simp at hk
  | cons x t ih =>
    intro k hk d
    cases k with
    | zero => rfl
    | succ k =>
      simp only [List.length_cons] at hk
      have hk' : k < t.length := by omega
      have htne : t ≠ [] := by
        have : 0 < t.length := by omega
        exact List.length_pos.mp this
      rw [List.drop_succ_cons, ih k hk' d, List.getLastD_cons]
      cases t with
      | nil => exact absurd rfl htne
      | cons b u => rw [List.getLastD_cons, List.getLastD_cons]

lemma getLastD_lastN {α : Type} {n : ℕ} {l : List α} (hn : 0 < n) (hl : l ≠ []) (d : α) :
    (lastN n l).getLastD d = l.getLastD d := by
  unfold lastN
  apply getLastD_drop
  have := List.length_pos.mpr hl
  omega

end Momentum

namespace Momentum

lemma sma_of_long {ps : List ℚ} {n : ℕ} (hn : 0 < n) (hlen : n ≤ ps.length) :
    sma ps n = mean (lastN n ps) := by
  unfold sma
  have hne : ps ≠ [] := by
    have h0 : 0 < ps.length := lt_of_lt_of_le hn hlen
    exact List.length_pos.mp h0
  rw [if_neg hne, if_neg (by omega)]

lemma structure_parts_of_increasing {ps : List ℚ}
    (hs : List.Chain' (· < ·) ps) (hlen : 200 ≤ ps.length) :
    structure_parts ps = (1, 1, 1, 1) := by
  have hp : List.Pairwise (· < ·) ps := List.chain'_iff_pairwise.mp hs
  have hple : List.Pairwise (· ≤ ·) ps := hp.imp le_of_lt
  have hne : ps ≠ [] := by
    have h0 : 0 < ps.length := by omega
    exact List.length_pos.mp h0
  have hmax : ∀ x ∈ ps, x ≤ ps.getLastD 0 :=
    fun x hx => le_getLastD_of_pairwise ps hple x hx 0
  have h50 : sma ps 50 ≤ ps.getLastD 0 := by
    rw [sma_of_long (by norm_num) (by omega)]
    exact mean_le (lastN_ne_nil (by norm_num) hne)
      (fun x hx => hmax x (lastN_subset _ _ hx))
  have h200 : sma ps 200 ≤ ps.getLastD 0 := by
    rw [sma_of_long (by norm_num) (by omega)]
    exact mean_le (lastN_ne_nil (by norm_num) hne)
      (fun x hx => hmax x (lastN_subset _ _ hx))
  have hstack : sma ps 200 ≤ sma ps 50 := by
    rw [sma_of_long (by norm_num) (by omega), sma_of_long (by norm_num) (by omega)]
    have hd : (lastN 200 ps).drop 150 = lastN 50 ps := by
      unfold lastN
      rw [List.drop_drop]
      congr 1
      omega
    have hdec : (lastN 200 ps).take 150 ++ lastN 50 ps = lastN 200 ps := by
      rw [← hd, List.take_append_drop]
    have hw : List.Pairwise (· < ·) (lastN 200 ps) :=
      List.Pairwise.sublist (List.drop_sublist _ _) hp
    have hw2 : List.Pairwise (· < ·) ((lastN 200 ps).take 150 ++ lastN 50 ps) := by
      rw [hdec]; exact hw
    have hcross := (List.pairwise_append.mp hw2).2.2
    have hbne : lastN 50 ps ≠ [] := lastN_ne_nil (by norm_num) hne
    have hcmem : (lastN 50 ps).headD 0 ∈ lastN 50 ps := headD_mem hbne 0
    have hb50 : List.Pairwise (· < ·) (lastN 50 ps) :=
      List.Pairwise.sublist (List.drop_sublist _ _) hp
    have hbc : ∀ y ∈ lastN 50 ps, (lastN 50 ps).headD 0 ≤ y := headD_le_of_pairwise hb50 0
    have hac : ∀ x ∈ (lastN 200 ps).take 150, x ≤ (lastN 50 ps).headD 0 :=
      fun x hx => (hcross x hx _ hcmem).le
    have hfin := mean_append_le hbne hac hbc
    rw [hdec] at hfin
    exact hfin
  have hlook : min 60 ps.length = 60 := min_eq_left (by omega)
  have hwne : lastN 60 ps ≠ [] := lastN_ne_nil (by norm_num) hne
  have hwp : List.Pairwise (· < ·) (lastN 60 ps) :=
    List.Pairwise.sublist (List.drop_sublist _ _) hp
  have hwlen : (lastN 60 ps).length = 60 := by rw [lastN_length]; omega
  have hlast : (lastN 60 ps).getLastD 0 = ps.getLastD 0 :=
    getLastD_lastN (by norm_num) hne 0
  have hhi : listMax (lastN 60 ps) = ps.getLastD 0 := by
    apply le_antisymm
    · exact listMax_le hwne (fun y hy => hmax y (lastN_subset _ _ hy))
    · rw [← hlast]; exact le_listMax (getLastD_mem _ hwne 0)
  have hlo : listMin (lastN 60 ps) < ps.getLastD 0 := by
    cases hww : lastN 60 ps with
    | nil => exact absurd hww hwne
    | cons w0 t =>
      have htne : t ≠ [] := by
        intro h0
        rw [hww, h0] at hwlen
        simp at hwlen
      have hpint : ps.getLastD 0 ∈ t := by
        rw [← hlast, hww, List.getLastD_cons]
        exact getLastD_mem t htne w0
      have hpw : List.Pairwise (· < ·) (w0 :: t) := by rw [← hww]; exact hwp
      have hw0p : w0 < ps.getLastD 0 := (List.pairwise_cons.mp hpw).1 _ hpint
      have hm0 : listMin (w0 :: t) ≤ w0 := by
        show t.foldl min w0 ≤ w0
        exact foldl_min_le_init w0 t
      linarith
  simp only [structure_parts]
  rw [hlook]
  rw [if_pos h50, if_pos h200, if_pos hstack]
  rw [if_neg (by rw [hhi]; exact (ne_of_gt hlo))]
  rw [hhi]
  have hsub : ps.getLastD 0 - listMin (lastN 60 ps) ≠ 0 := by
    intro h0
    have : listMin (lastN 60 ps) = ps.getLastD 0 := by linarith [sub_eq_zero.mp h0]
    linarith
  rw [div_self hsub]
  norm_num [clamp]

lemma structure_subscore_of_increasing {ps : List ℚ}
    (hs : List.Chain' (· < ·) ps) (hlen : 200 ≤ ps.length) :
    structure_subscore ps = 1 := by
  unfold structure_subscore
  rw [structure_parts_of_increasing hs hlen]
  norm_num [clamp]

/-- C8: on a strictly increasing price series of length at least 200 the
structure components are above50 = above200 = ma_stack = 1 and
range_pos = 1, so the structure subscore is exactly 1. -/
theorem C8_monotone_structure (ps : List ℚ)
    (hs : List.Chain' (· < ·) ps) (hlen : 200 ≤ ps.length) :
    structure_parts ps = (1, 1, 1, 1) ∧ structure_subscore ps = 1 :=
  ⟨structure_parts_of_increasing hs hlen, structure_subscore_of_increasing hs hlen⟩

/-- A concrete strictly increasing series of 200 prices. -/
def incr200 : List ℚ := (List.range 200).map (fun n : ℕ => (n : ℚ))

lemma incr200_chain : List.Chain' (· < ·) incr200 := by
  rw [incr200, List.chain'_map]
  have h1 : List.Chain' (· < ·) (List.range 200) :=
    List.chain'_iff_pairwise.mpr (List.pairwise_lt_range 200)
  exact List.Chain'.imp (fun a b h => by exact_mod_cast h) h1

lemma incr200_len : 200 ≤ incr200.length := by simp [incr200]

/-- Witness for C8 at a concrete increasing series of 200 prices. -/
theorem C8_monotone_structure_witness :
    (List.Chain' (· < ·) incr200 ∧ 200 ≤ incr200.length)
    ∧ (structure_parts incr200 = (1, 1, 1, 1) ∧ structure_subscore incr200 = 1) :=
  ⟨⟨incr200_chain, incr200_len⟩,
   C8_monotone_structure incr200 incr200_chain incr200_len⟩

end Momentum

namespace Momentum

/-! ### C3: the internal truncation acts on the extracted series -/

lemma filterMap_replicate_some {γ : Type} {f : γ → Option ℚ} {a : γ} {b : ℚ}
    (h : f a = some b) : ∀ (n : ℕ),
    List.filterMap f (List.replicate n a) = List.replicate n b
  | 0 => rfl
  | n+1 => by
      rw [List.replicate_succ, List.filterMap_cons, h,
        filterMap_replicate_some h n, List.replicate_succ]

lemma extract_loop_num_cons {q : ℚ} (hq : 0 < q) (rest : List Item) :
    extract_loop (Item.num q :: rest)
      = ((q :: (extract_loop rest).1), (extract_loop rest).2.1, false) := by
  simp only [extract_loop, if_pos hq]

lemma extract_loop_replicate_num {q : ℚ} (hq : 0 < q) : ∀ (n : ℕ),
    extract_loop (List.replicate (n+1) (Item.num q))
      = (List.replicate (n+1) q, [], false)
  | 0 => by
      rw [List.replicate_succ, extract_loop_num_cons hq]
      simp [extract_loop, List.replicate]
  | n+1 => by
      rw [List.replicate_succ, extract_loop_num_cons hq,
        extract_loop_replicate_num hq n]
      simp [List.replicate_succ]

lemma extract_series_replicate_num {q : ℚ} (hq : 0 < q) {n : ℕ} (hn : 10 ≤ n) :
    extract_series (List.replicate n (Item.num q)) = (List.replicate n q, none) := by
  obtain ⟨m, rfl⟩ : ∃ m, n = m + 1 := ⟨n - 1, by omega⟩
  unfold extract_series
  rw [extract_loop_replicate_num hq m]
  simp only [List.length_replicate]
  rw [if_neg (by omega)]
  simp

/-- Amended C3: the 200-day truncation is applied to the extracted
valid-price (and volume) series, not to the raw record list; any two inputs
with at least 10 valid prices whose truncated extracted series coincide
produce identical component dictionaries (label, score, subscores, vol,
max drawdown, has_volume). -/
theorem C3_truncated_extraction_determines (ph1 ph2 : List Item)
    (h1 : 10 ≤ (extract_series ph1).1.length)
    (h2 : 10 ≤ (extract_series ph2).1.length)
    (hp : truncPrices ph1 = truncPrices ph2)
    (hv : truncVolumes ph1 = truncVolumes ph2) :
    compute_components ph1 = compute_components ph2 := by
  rw [compute_components_main (by omega), compute_components_main (by omega), hp, hv]

lemma w205_extract :
    extract_series (List.replicate 205 (Item.num 2)) = (List.replicate 205 (2:ℚ), none) :=
  extract_series_replicate_num (by norm_num) (by norm_num)

lemma w201_extract :
    extract_series (List.replicate 201 (Item.num 2)) = (List.replicate 201 (2:ℚ), none) :=
  extract_series_replicate_num (by norm_num) (by norm_num)

lemma lastN_replicate {α : Type} (n m : ℕ) (a : α) :
    lastN n (List.replicate m a) = List.replicate (min n m) a := by
  unfold lastN
  rw [List.length_replicate, List.drop_replicate]
  congr 1
  omega

lemma w205_trunc :
    truncPrices (List.replicate 205 (Item.num 2)) = List.replicate 200 (2:ℚ) := by
  unfold truncPrices
  rw [w205_extract]
  simp only [List.length_replicate, HEALTH_WINDOW_DAYS]
  rw [if_pos (by omega), lastN_replicate]
  norm_num

lemma w201_trunc :
    truncPrices (List.replicate 201 (Item.num 2)) = List.replicate 200 (2:ℚ) := by
  unfold truncPrices
  rw [w201_extract]
  simp only [List.length_replicate, HEALTH_WINDOW_DAYS]
  rw [if_pos (by omega), lastN_replicate]
  norm_num

lemma w205_truncv : truncVolumes (List.replicate 205 (Item.num 2)) = none := by
  apply truncVolumes_none
  rw [w205_extract]

lemma w201_truncv : truncVolumes (List.replicate 201 (Item.num 2)) = none := by
  apply truncVolumes_none
  rw [w201_extract]

/-- Witness for the amended C3: 205 bare prices and 201 bare prices with
the same most recent 200 extracted points give identical components. -/
theorem C3_truncated_extraction_determines_witness :
    (10 ≤ (extract_series (List.replicate 205 (Item.num 2))).1.length
      ∧ 10 ≤ (extract_series (List.replicate 201 (Item.num 2))).1.length
      ∧ truncPrices (List.replicate 205 (Item.num 2))
          = truncPrices (List.replicate 201 (Item.num 2))
      ∧ truncVolumes (List.replicate 205 (Item.num 2))
          = truncVolumes (List.replicate 201 (Item.num 2)))
    ∧ compute_components (List.replicate 205 (Item.num 2))
        = compute_components (List.replicate 201 (Item.num 2)) :=
  ⟨⟨by rw [w205_extract]; simp, by rw [w201_extract]; simp,
    by rw [w205_trunc, w201_trunc], by rw [w205_truncv, w201_truncv]⟩,
   C3_truncated_extraction_determines _ _
     (by rw [w205_extract]; simp) (by rw [w201_extract]; simp)
     (by rw [w205_trunc, w201_trunc]) (by rw [w205_truncv, w201_truncv])⟩

/-! ### C3 counterexample: records older than the most recent 200 change the output -/

/-- 200 records with close 1 and volume 1. -/
def cexA : List Item := List.replicate 200 (Item.record (some 1) (some 1))

/-- The same as cexA with one extra malformed record at the front: both
inputs agree on their most recent 200 entries. -/
def cexB : List Item := Item.other :: cexA

lemma zip_replicate_eq {α β : Type} (a : α) (b : β) :
    ∀ (m n : ℕ), (List.replicate m a).zip (List.replicate n b)
      = List.replicate (min m n) (a, b)
  | 0, n => by simp
  | m+1, 0 => by simp
  | m+1, n+1 => by
      rw [List.replicate_succ, List.replicate_succ b n, List.zip_cons_cons,
        zip_replicate_eq a b m n]
      rw [← List.replicate_succ]
      congr 1
      omega

lemma filter_replicate_of_true {γ : Type} {p : γ → Bool} {a : γ} (h : p a = true) :
    ∀ (n : ℕ), List.filter p (List.replicate n a) = List.replicate n a
  | 0 => rfl
  | n+1 => by
      rw [List.replicate_succ, List.filter_cons]
      simp only [h, if_true]
      rw [filter_replicate_of_true h n, ← List.replicate_succ]

lemma filter_replicate_of_false {γ : Type} {p : γ → Bool} {a : γ} (h : p a = false) :
    ∀ (n : ℕ), List.filter p (List.replicate n a) = []
  | 0 => rfl
  | n+1 => by
      rw [List.replicate_succ, List.filter_cons]
      simp only [h]
      simp only [Bool.false_eq_true, if_false]
      exact filter_replicate_of_false h n

lemma getLastD_replicate (a d : ℚ) {n : ℕ} (hn : n ≠ 0) :
    (List.replicate n a).getLastD d = a :=
  List.eq_of_mem_replicate (getLastD_mem _ (by simp [hn]) d)

lemma getLast_getD_replicate (a d : ℚ) {n : ℕ} (hn : n ≠ 0) :
    (List.replicate n a).getLast?.getD d = a := by
  have h := getLastD_replicate a d hn
  rwa [List.getLastD_eq_getLast?] at h

lemma mean_replicate (a : ℚ) {n : ℕ} (hn : n ≠ 0) :
    mean (List.replicate n a) = a := by
  rw [mean_eq (by simp [hn]), List.sum_replicate, nsmul_eq_mul, List.length_replicate]
  have hne : ((n : ℕ) : ℚ) ≠ 0 := by exact_mod_cast hn
  field_simp

lemma participation_ones :
    participation_subscore (List.replicate 200 (1:ℚ)) (List.replicate 200 (1:ℚ))
      = 13/16 := by
  unfold participation_subscore
  norm_num [List.length_replicate, lastN_replicate, List.tail_replicate, zip_replicate_eq,
    filter_replicate_of_true, filter_replicate_of_false, List.map_replicate,
    List.sum_replicate, getLastD_replicate, getLast_getD_replicate, mean_replicate,
    normalize_linear, clamp, min_def, max_def]

lemma round3_1316 : round3 ((13 : ℚ)/16) = 203/250 := by
  unfold round3 rndE
  have hfl : ⌊(1000 * ((13:ℚ)/16))⌋ = 812 := by norm_num
  have hfr : Int.fract (1000 * ((13:ℚ)/16)) = 1/2 := by
    unfold Int.fract
    rw [hfl]
    norm_num
  rw [if_pos hfr, hfl, if_pos (by decide)]
  norm_num

lemma cexA_extract :
    extract_series cexA = (List.replicate 200 (1:ℚ), some (List.replicate 200 (1:ℚ))) := by
  have hall : cexA.all recHasVol = true := by
    rw [List.all_eq_true]
    intro a ha
    have he := List.eq_of_mem_replicate ha
    subst he
    norm_num [recHasVol]
  have hvp : validPrices cexA = List.replicate 200 (1:ℚ) := by
    unfold validPrices cexA
    exact filterMap_replicate_some (by norm_num [closeOf]) 200
  have hvv : validVols cexA = List.replicate 200 (1:ℚ) := by
    unfold validVols cexA
    exact filterMap_replicate_some (by norm_num [volOf]) 200
  rw [extract_series_some_of_all (by rw [hvp]; simp) hall, hvp, hvv]

lemma cexA_participation :
    (calculate_momentum_with_delta cexA).components.participation = 203/250 := by
  rw [calc_participation]
  have h10 : ¬ (extract_series cexA).1.length < 10 := by
    rw [cexA_extract]; simp
  rw [compute_components_main h10, componentsOf_participation]
  have htp : truncPrices cexA = List.replicate 200 (1:ℚ) := by
    unfold truncPrices
    rw [cexA_extract]
    simp only [List.length_replicate, HEALTH_WINDOW_DAYS]
    rw [if_neg (by omega)]
  have htv : truncVolumes cexA = some (List.replicate 200 (1:ℚ)) := by
    unfold truncVolumes
    rw [cexA_extract]
    simp only [List.length_replicate, HEALTH_WINDOW_DAYS]
    rw [if_neg (by omega)]
  rw [htp, htv]
  show round3 (participation_subscore (List.replicate 200 (1:ℚ)) (List.replicate 200 (1:ℚ)))
    = 203/250
  rw [participation_ones, round3_1316]

lemma cexB_valid : validPrices cexB = List.replicate 200 (1:ℚ) := by
  unfold validPrices cexB
  rw [List.filterMap_cons]
  show List.filterMap closeOf cexA = _
  unfold cexA
  exact filterMap_replicate_some (by norm_num [closeOf]) 200

lemma cexB_participation :
    (calculate_momentum_with_delta cexB).components.participation = 1/2 := by
  have hbad : cexB.all recHasVol = false := by
    unfold cexB
    rw [List.all_cons]
    simp [recHasVol]
  have h10 : 10 ≤ (validPrices cexB).length := by rw [cexB_valid]; simp
  have hex := extract_series_none_of_bad h10 hbad
  rw [calc_participation]
  have hnn : ¬ (extract_series cexB).1.length < 10 := by
    rw [extract_series_fst h10]; omega
  rw [compute_components_main hnn, componentsOf_participation,
    truncVolumes_none (by rw [hex])]
  exact round3_half

/-- Counterexample to C3 as stated: the inputs cexA and cexB agree on their
most recent 200 records, yet calculate_momentum_with_delta reports a
different participation subscore for them (0.812 vs 0.5), because the extra
old malformed record of cexB disables volume usage for the whole series. -/
theorem C3_counterexample :
    lastN 200 cexA = lastN 200 cexB
    ∧ calculate_momentum_with_delta cexA ≠ calculate_momentum_with_delta cexB := by
  constructor
  · show cexA.drop (cexA.length - 200) = cexB.drop (cexB.length - 200)
    have hA : cexA.length = 200 := by simp [cexA]
    have hB : cexB.length = 201 := by simp [cexB, cexA]
    rw [hA, hB]
    norm_num
    rfl
  · intro heq
    have hpA := cexA_participation
    rw [heq, cexB_participation] at hpA
    norm_num at hpA

end Momentum

namespace Momentum

/-! ### General lemmas for the linear-ramp example -/

lemma clamp_of_nonpos {α : Type} [LinearOrderedField α] {x : α} (h : x ≤ 0) :
    clamp x = 0 := by
  unfold clamp
  rw [min_eq_right (le_trans h zero_le_one), max_eq_left h]

lemma zip_tail_lt {ps : List ℚ} (hs : List.Chain' (· < ·) ps) :
    ∀ p ∈ ps.zip ps.tail, p.1 < p.2 := by
  induction ps with
  | nil => intro p hp; cases hp
  | cons a t ih =>
    cases t with
    | nil => intro p hp; simp at hp
    | cons b u =>
      intro p hp
      rw [show (a :: b :: u).tail = b :: u from rfl, List.zip_cons_cons] at hp
      rcases List.mem_cons.mp hp with h1 | hm
      · subst h1
        exact (List.chain'_cons.mp hs).1
      · exact ih (List.chain'_cons.mp hs).2 p hm

lemma mean_zero {l : List ℚ} (h : ∀ x ∈ l, x = 0) : mean l = 0 := by
  cases l with
  | nil => rfl
  | cons a t =>
    rw [mean_eq (by simp)]
    rw [List.sum_eq_zero h]
    simp

lemma foldl_avg_zero (p : ℚ) : ∀ (l : List ℚ) (z : ℚ), (∀ x ∈ l, x = 0) → z = 0 →
    l.foldl (fun a x => (a * (p - 1) + x) / p) z = 0
  | [], _, _, hz => hz
  | a :: t, z, h, hz => by
      rw [List.foldl_cons]
      apply foldl_avg_zero p t _ (fun x hx => h x (List.mem_cons_of_mem _ hx))
      rw [hz, h a (List.mem_cons_self a t)]
      simp

lemma rsi_of_increasing {ps : List ℚ} (hs : List.Chain' (· < ·) ps)
    (hlen : 15 ≤ ps.length) : rsi ps 14 = 100 := by
  unfold rsi
  rw [if_neg (by omega)]
  simp only
  have hloss : ∀ x ∈ ((ps.zip ps.tail).map (fun p => p.2 - p.1)).map
      (fun d => max 0 (-d)), x = 0 := by
    intro x hx
    rw [List.mem_map] at hx
    obtain ⟨d, hd, rfl⟩ := hx
    rw [List.mem_map] at hd
    obtain ⟨p, hp, rfl⟩ := hd
    have hlt := zip_tail_lt hs p hp
    have hneg : -(p.2 - p.1) ≤ 0 := by linarith
    exact max_eq_left hneg
  have hz : mean ((((ps.zip ps.tail).map (fun p => p.2 - p.1)).map
      (fun d => max 0 (-d))).take 14) = 0 :=
    mean_zero (fun x hx => hloss x (List.mem_of_mem_take hx))
  rw [if_pos]
  exact foldl_avg_zero _ _ _
    (fun x hx => hloss x (List.mem_of_mem_drop hx)) hz

lemma mdd_go_zero : ∀ (l : List ℚ) (peak : ℚ), List.Chain' (· ≤ ·) (peak :: l) →
    mdd_go l peak 0 = 0
  | [], _, _ => rfl
  | p :: rest, peak, hc => by
      have hpp : peak ≤ p := (List.chain'_cons.mp hc).1
      have hrest : List.Chain' (· ≤ ·) (p :: rest) := (List.chain'_cons.mp hc).2
      have hpeak : (if peak < p then p else peak) = p := by
        split_ifs with h
        · rfl
        · exact le_antisymm hpp (not_lt.mp h)
      simp only [mdd_go, hpeak]
      have hdd : (if 0 < p then (p - p) / p else 0) = 0 := by
        split_ifs <;> simp
      rw [hdd]
      simp only [lt_self_iff_false, if_false]
      exact mdd_go_zero rest p hrest

lemma max_drawdown_sorted {l : List ℚ} (hs : List.Chain' (· ≤ ·) l) :
    max_drawdown l = 0 := by
  cases l with
  | nil => rfl
  | cons p rest =>
    unfold max_drawdown
    have hpeak : (if p < p then p else p) = p := by
      rw [if_neg (lt_irrefl p)]
    simp only [mdd_go, hpeak]
    have hdd : (if 0 < p then (p - p) / p else 0) = 0 := by
      split_ifs <;> simp
    rw [hdd]
    simp only [lt_self_iff_false, if_false]
    exact mdd_go_zero rest p hs

end Momentum

namespace Momentum

lemma ema_fold_le {k1 k2 : ℚ} (hk2 : 0 ≤ k2) (hkk : k2 ≤ k1) (hk1 : k1 ≤ 1) :
    ∀ (l : List ℚ) (w e1 e2 : ℚ), e2 ≤ e1 → e1 ≤ w → List.Chain' (· ≤ ·) (w :: l) →
      l.foldl (fun e v => v * k2 + e * (1 - k2)) e2
        ≤ l.foldl (fun e v => v * k1 + e * (1 - k1)) e1
  | [], _, _, _, h21, _, _ => h21
  | v :: t, w, e1, e2, h21, h1w, hc => by
      have hwv : w ≤ v := (List.chain'_cons.mp hc).1
      have hct : List.Chain' (· ≤ ·) (v :: t) := (List.chain'_cons.mp hc).2
      rw [List.foldl_cons, List.foldl_cons]
      apply ema_fold_le hk2 hkk hk1 t v
      · nlinarith [mul_nonneg (by linarith : (0:ℚ) ≤ 1 - k2) (by linarith : (0:ℚ) ≤ e1 - e2),
          mul_nonneg (by linarith : (0:ℚ) ≤ k1 - k2) (by linarith : (0:ℚ) ≤ v - e1)]
      · nlinarith [mul_nonneg (by linarith : (0:ℚ) ≤ 1 - k1) (by linarith : (0:ℚ) ≤ v - e1)]
      · exact hct

lemma ema_le_ema {values : List ℚ} (hne : values ≠ [])
    (hs : List.Chain' (· ≤ ·) values) {p1 p2 : ℕ} (h1 : 1 < p1) (h2 : p1 ≤ p2) :
    ema values p2 ≤ ema values p1 := by
  unfold ema
  rw [if_neg (by push_neg; exact ⟨hne, by omega⟩), if_neg (by push_neg; exact ⟨hne, by omega⟩)]
  cases values with
  | nil => exact absurd rfl hne
  | cons h t =>
    have hp1 : (0:ℚ) < (p1 : ℚ) + 1 := by positivity
    have hp2 : (0:ℚ) < (p2 : ℚ) + 1 := by positivity
    have hcast : ((p1 : ℚ)) + 1 ≤ ((p2 : ℚ)) + 1 := by
      have : (p1 : ℚ) ≤ (p2 : ℚ) := by exact_mod_cast h2
      linarith
    apply ema_fold_le
    · positivity
    · exact div_le_div_of_nonneg_left (by norm_num) hp1 hcast
    · rw [div_le_one hp1]
      have : (2:ℚ) ≤ (p1 : ℚ) := by exact_mod_cast h1
      linarith
    · exact le_refl _
    · exact le_refl _
    · exact hs

lemma ema_fold_pos {k : ℚ} (hk0 : 0 ≤ k) (hk1 : k ≤ 1) :
    ∀ (l : List ℚ), (∀ v ∈ l, 0 < v) → ∀ e : ℚ, 0 < e →
      0 < l.foldl (fun e v => v * k + e * (1 - k)) e
  | [], _, _, he => he
  | v :: t, h, e, he => by
      rw [List.foldl_cons]
      apply ema_fold_pos hk0 hk1 t (fun x hx => h x (List.mem_cons_of_mem _ hx))
      have hv := h v (List.mem_cons_self v t)
      by_cases hk : k = 0
      · subst hk
        simpa using he
      · have hkpos : 0 < k := lt_of_le_of_ne hk0 (Ne.symm hk)
        nlinarith [mul_nonneg (by linarith : (0:ℚ) ≤ 1 - k) he.le, mul_pos hv hkpos]

lemma ema_pos {values : List ℚ} (hne : values ≠ []) (hpos : ∀ v ∈ values, 0 < v)
    {p : ℕ} (hp : 1 < p) : 0 < ema values p := by
  unfold ema
  rw [if_neg (by push_neg; exact ⟨hne, by omega⟩)]
  cases values with
  | nil => exact absurd rfl hne
  | cons h t =>
    have hpq : (0:ℚ) < (p : ℚ) + 1 := by positivity
    apply ema_fold_pos
    · positivity
    · rw [div_le_one hpq]
      have : (2:ℚ) ≤ (p : ℚ) := by exact_mod_cast hp
      linarith
    · exact fun x hx => hpos x (List.mem_cons_of_mem _ hx)
    · exact hpos h (List.mem_cons_self h t)

lemma normalize_ge_half {x : ℚ} (hx : 0 ≤ x) :
    1/2 ≤ normalize_linear x (-(3/100)) (3/100) := by
  unfold normalize_linear
  rw [if_neg (by norm_num)]
  have harg : (1:ℚ)/2 ≤ (x - -(3/100)) / (3/100 - -(3/100)) := by
    rw [le_div_iff₀ (by norm_num)]
    linarith
  calc (1:ℚ)/2 = clamp ((1:ℚ)/2) := (clamp_eq_self (by norm_num) (by norm_num)).symm
    _ ≤ clamp _ := clamp_mono harg

lemma length_pos_r {l : List ℝ} (h : l ≠ []) : (0 : ℝ) < (l.length : ℝ) := by
  have := List.length_pos.mpr h
  exact_mod_cast this

lemma mean_le_r {l : List ℝ} {c : ℝ} (hne : l ≠ []) (h : ∀ x ∈ l, x ≤ c) :
    mean l ≤ c := by
  rw [mean_eq hne]
  have hsum : l.sum ≤ l.length • c := List.sum_le_card_nsmul _ _ h
  rw [nsmul_eq_mul] at hsum
  rw [div_le_iff₀ (length_pos_r hne)]
  linarith

lemma le_mean_r {l : List ℝ} {c : ℝ} (hne : l ≠ []) (h : ∀ x ∈ l, c ≤ x) :
    c ≤ mean l := by
  rw [mean_eq hne]
  have hsum : l.length • c ≤ l.sum := List.card_nsmul_le_sum _ _ h
  rw [nsmul_eq_mul] at hsum
  rw [le_div_iff₀ (length_pos_r hne)]
  linarith

lemma stdev_le_of_bounds {l : List ℝ} {c : ℝ} (hc : 0 ≤ c)
    (h : ∀ x ∈ l, 0 ≤ x ∧ x ≤ c) : stdev l ≤ c * Real.sqrt 2 := by
  unfold stdev
  split_ifs with hlen
  · positivity
  · push_neg at hlen
    have hne : l ≠ [] := by
      intro h0
      rw [h0] at hlen
      simp at hlen
    have hm0 : 0 ≤ mean l := le_mean_r hne (fun x hx => (h x hx).1)
    have hmc : mean l ≤ c := mean_le_r hne (fun x hx => (h x hx).2)
    have hsq : ∀ y ∈ l.map (fun x => (x - mean l) ^ 2), y ≤ c ^ 2 := by
      intro y hy
      rw [List.mem_map] at hy
      obtain ⟨x, hx, rfl⟩ := hy
      have hx1 := (h x hx).1
      have hx2 := (h x hx).2
      exact sq_le_sq' (by linarith) (by linarith)
    have hsum : (l.map (fun x => (x - mean l) ^ 2)).sum
        ≤ (l.length : ℝ) * c ^ 2 := by
      have := List.sum_le_card_nsmul (l.map (fun x => (x - mean l) ^ 2)) (c ^ 2) hsq
      rwa [nsmul_eq_mul, List.length_map] at this
    have hlen2 : (2 : ℝ) ≤ (l.length : ℝ) := by exact_mod_cast hlen
    have hvar : (l.map (fun x => (x - mean l) ^ 2)).sum / ((l.length : ℝ) - 1)
        ≤ 2 * c ^ 2 := by
      rw [div_le_iff₀ (by linarith)]
      have hsumnn : (0:ℝ) ≤ (l.map (fun x => (x - mean l) ^ 2)).sum := by
        apply List.sum_nonneg
        intro y hy
        rw [List.mem_map] at hy
        obtain ⟨x, _, rfl⟩ := hy
        positivity
      nlinarith
    have hmax : max 0 ((l.map (fun x => (x - mean l) ^ 2)).sum / ((l.length : ℝ) - 1))
        ≤ 2 * c ^ 2 := max_le (by positivity) hvar
    calc Real.sqrt (max 0 _) ≤ Real.sqrt (2 * c ^ 2) := Real.sqrt_le_sqrt hmax
      _ = Real.sqrt 2 * Real.sqrt (c ^ 2) := Real.sqrt_mul (by norm_num) _
      _ = Real.sqrt 2 * c := by rw [Real.sqrt_sq hc]
      _ = c * Real.sqrt 2 := mul_comm _ _

end Momentum

namespace Momentum

lemma risk_one {ps : List ℚ}
    (hpair : ∀ p ∈ ps.zip ps.tail, (100:ℚ) ≤ p.1 ∧ p.1 ≤ p.2 ∧ p.2 - p.1 ≤ p.1 / 249)
    (hmdd : max_drawdown (lastN 120 ps) = 0) :
    (risk_subscore ps).1 = 1 := by
  unfold risk_subscore
  simp only
  have hvb : ∀ x ∈ (ps.zip ps.tail).map (fun p => Real.log ((p.2 : ℝ) / (p.1 : ℝ))),
      0 ≤ x ∧ x ≤ 1/249 := by
    intro x hx
    rw [List.mem_map] at hx
    obtain ⟨p, hp, rfl⟩ := hx
    obtain ⟨h100, hle, hstep⟩ := hpair p hp
    have h100R : (100:ℝ) ≤ (p.1 : ℝ) := by exact_mod_cast h100
    have ha : (0:ℝ) < (p.1 : ℝ) := by linarith
    have hbb : (p.1 : ℝ) ≤ (p.2 : ℝ) := by exact_mod_cast hle
    have hdiv1 : (1:ℝ) ≤ (p.2 : ℝ) / (p.1 : ℝ) := by
      rw [le_div_iff₀ ha]; linarith
    refine ⟨Real.log_nonneg hdiv1, ?_⟩
    have hlog := Real.log_le_sub_one_of_pos (by linarith : (0:ℝ) < (p.2:ℝ)/(p.1:ℝ))
    have hstepR : (p.2 : ℝ) - (p.1 : ℝ) ≤ (p.1 : ℝ)/249 := by exact_mod_cast hstep
    have hsub : (p.2 : ℝ)/(p.1:ℝ) - 1 ≤ 1/249 := by
      rw [div_sub_one (ne_of_gt ha), div_le_div_iff₀ ha (by norm_num : (0:ℝ) < 249)]
      linarith
    linarith
  have hstdev := stdev_le_of_bounds (by norm_num : (0:ℝ) ≤ 1/249) hvb
  have hsqrt2 : Real.sqrt 2 < 3/2 := by
    rw [Real.sqrt_lt' (by norm_num)]
    norm_num
  have hs2 : (0:ℝ) ≤ Real.sqrt 2 := Real.sqrt_nonneg 2
  have hvol : stdev ((ps.zip ps.tail).map (fun p => Real.log ((p.2 : ℝ) / (p.1 : ℝ))))
      ≤ 8/1000 := by nlinarith
  have h1 : normalize_linear
      (stdev ((ps.zip ps.tail).map (fun p => Real.log ((p.2 : ℝ) / (p.1 : ℝ)))))
      ((8:ℝ)/1000) (30/1000) = 0 := by
    unfold normalize_linear
    rw [if_neg (by norm_num)]
    apply clamp_of_nonpos
    apply div_nonpos_iff.mpr
    right
    constructor
    · linarith
    · norm_num
  have h2 : (1 : ℚ) - normalize_linear (max_drawdown (lastN 120 ps)) (5/100) (35/100) = 1 := by
    rw [hmdd]
    norm_num [normalize_linear, clamp, min_def, max_def]
  rw [h1, h2]
  push_cast
  norm_num [clamp]

/-! ### Arithmetic price ramps -/

/-- A list of n prices starting at a, rising by d each step. -/
def arithSeq (d : ℚ) : ℚ → ℕ → List ℚ
  | _, 0 => []
  | a, n+1 => a :: arithSeq d (a + d) n

lemma arithSeq_length (d : ℚ) : ∀ (a : ℚ) (n : ℕ), (arithSeq d a n).length = n
  | _, 0 => rfl
  | a, n+1 => by
      rw [show arithSeq d a (n+1) = a :: arithSeq d (a+d) n from rfl,
        List.length_cons, arithSeq_length d (a+d) n]

lemma arithSeq_ne_nil (d a : ℚ) (n : ℕ) (hn : n ≠ 0) : arithSeq d a n ≠ [] := by
  intro h
  have hl := arithSeq_length d a n
  rw [h] at hl
  simp at hl
  omega

lemma arithSeq_drop (d : ℚ) : ∀ (k n : ℕ) (a : ℚ),
    (arithSeq d a n).drop k = arithSeq d (a + (k : ℚ) * d) (n - k)
  | 0, n, a => by simp
  | k+1, 0, a => by
      rw [show arithSeq d a 0 = ([] : List ℚ) from rfl,
        Nat.zero_sub (k+1),
        show arithSeq d (a + ((k+1 : ℕ) : ℚ) * d) 0 = ([] : List ℚ) from rfl]
      simp
  | k+1, n+1, a => by
      rw [show arithSeq d a (n+1) = a :: arithSeq d (a+d) n from rfl,
        List.drop_succ_cons, arithSeq_drop d k n (a + d)]
      have h1 : (a + d) + (k : ℚ) * d = a + ((k+1 : ℕ) : ℚ) * d := by push_cast; ring
      have h2 : n - k = (n+1) - (k+1) := by omega
      rw [h1, h2]

lemma arithSeq_chain_lt (d : ℚ) (hd : 0 < d) : ∀ (n : ℕ) (a : ℚ),
    List.Chain' (· < ·) (arithSeq d a n)
  | 0, _ => by simp [arithSeq]
  | 1, _ => by simp [arithSeq]
  | n+2, a => by
      rw [show arithSeq d a (n+2) = a :: (a+d) :: arithSeq d (a+d+d) n from rfl]
      rw [List.chain'_cons]
      refine ⟨by linarith, ?_⟩
      rw [show ((a+d) :: arithSeq d (a+d+d) n) = arithSeq d (a+d) (n+1) from rfl]
      exact arithSeq_chain_lt d hd (n+1) (a+d)

lemma arithSeq_pairs (d : ℚ) (hd : 0 ≤ d) : ∀ (n : ℕ) (a : ℚ),
    ∀ p ∈ (arithSeq d a n).zip (arithSeq d a n).tail, p.2 = p.1 + d ∧ a ≤ p.1
  | 0, _ => by simp [arithSeq]
  | 1, _ => by simp [arithSeq]
  | n+2, a => by
      intro p hp
      rw [show arithSeq d a (n+2) = a :: (a+d) :: arithSeq d (a+d+d) n from rfl] at hp
      rw [show (a :: (a+d) :: arithSeq d (a+d+d) n).tail
        = (a+d) :: arithSeq d (a+d+d) n from rfl] at hp
      rw [List.zip_cons_cons] at hp
      rcases List.mem_cons.mp hp with h1 | hm
      · subst h1
        exact ⟨rfl, le_refl a⟩
      · have hm2 : p ∈ (arithSeq d (a+d) (n+1)).zip ((arithSeq d (a+d) (n+1)).tail) := by
          rw [show arithSeq d (a+d) (n+1) = (a+d) :: arithSeq d (a+d+d) n from rfl]
          exact hm
        obtain ⟨hq1, hq2⟩ := arithSeq_pairs d hd (n+1) (a+d) p hm2
        exact ⟨hq1, by linarith⟩

lemma arithSeq_headD (d a : ℚ) (n : ℕ) (hn : n ≠ 0) (v : ℚ) :
    (arithSeq d a n).headD v = a := by
  cases n with
  | zero => omega
  | succ m => rfl

lemma arithSeq_getLastD (d : ℚ) : ∀ (n : ℕ) (a : ℚ),
    (arithSeq d a (n+1)).getLastD 0 = a + (n : ℚ) * d
  | 0, a => by simp [arithSeq]
  | n+1, a => by
      rw [show arithSeq d a (n+2) = a :: arithSeq d (a+d) (n+1) from rfl,
        List.getLastD_cons]
      rw [getLastD_irrel _ (arithSeq_ne_nil d (a+d) (n+1) (by omega)) a 0]
      rw [arithSeq_getLastD d n (a+d)]
      push_cast
      ring

lemma arithSeq_mem_ge (d : ℚ) (hd : 0 ≤ d) : ∀ (n : ℕ) (a : ℚ),
    ∀ x ∈ arithSeq d a n, a ≤ x
  | 0, _ => by simp [arithSeq]
  | n+1, a => by
      intro x hx
      rw [show arithSeq d a (n+1) = a :: arithSeq d (a+d) n from rfl] at hx
      rcases List.mem_cons.mp hx with h1 | hm
      · subst h1; exact le_refl x
      · have := arithSeq_mem_ge d hd n (a+d) x hm
        linarith

end Momentum

namespace Momentum

lemma extract_loop_map_num : ∀ (qs : List ℚ), (∀ q ∈ qs, 0 < q) →
    extract_loop (qs.map Item.num) = (qs, [], qs.isEmpty)
  | [], _ => rfl
  | q :: t, hpos => by
      rw [List.map_cons, extract_loop_num_cons (hpos q (List.mem_cons_self q t))]
      rw [extract_loop_map_num t (fun x hx => hpos x (List.mem_cons_of_mem _ hx))]
      simp

lemma extract_series_map_num (qs : List ℚ) (hpos : ∀ q ∈ qs, 0 < q)
    (hlen : 10 ≤ qs.length) : extract_series (qs.map Item.num) = (qs, none) := by
  have hne : qs ≠ [] := by
    intro h; rw [h] at hlen; simp at hlen
  unfold extract_series
  rw [extract_loop_map_num qs hpos]
  simp only
  rw [if_neg (by omega)]
  rw [if_pos (Or.inl (by simp [hne]))]

lemma lastN_sublist_self {α : Type} (n : ℕ) (l : List α) : (lastN n l).Sublist l :=
  List.drop_sublist _ _

/-! ### The linear ramp of C9: 250 closes from 100 to 200 -/

/-- The daily step of the C9 example: (200 - 100) / 249. -/
def c9d : ℚ := 100/249

/-- The 250 daily closes rising linearly from 100 to 200. -/
def c9Prices : List ℚ := arithSeq c9d 100 250

/-- The C9 example input: the 250 closes as bare numbers, no volume data. -/
def c9Input : List Item := c9Prices.map Item.num

/-- The most recent 200 points of the example series, as scored by the
engine after its internal truncation. -/
def c9T : List ℚ := arithSeq c9d (100 + 50 * c9d) 200

lemma c9d_pos : 0 < c9d := by norm_num [c9d]

lemma c9Prices_len : c9Prices.length = 250 := arithSeq_length _ _ _

lemma c9Prices_pos : ∀ q ∈ c9Prices, 0 < q := by
  intro q hq
  have := arithSeq_mem_ge c9d c9d_pos.le 250 100 q hq
  linarith

lemma c9_extract : extract_series c9Input = (c9Prices, none) :=
  extract_series_map_num _ c9Prices_pos (by rw [c9Prices_len]; norm_num)

lemma c9T_eq : truncPrices c9Input = c9T := by
  unfold truncPrices
  rw [c9_extract]
  simp only [HEALTH_WINDOW_DAYS]
  rw [if_pos (by rw [c9Prices_len]; norm_num)]
  show lastN 200 c9Prices = c9T
  unfold lastN
  rw [c9Prices_len]
  show c9Prices.drop 50 = c9T
  unfold c9Prices
  rw [arithSeq_drop]
  have h1 : (100 : ℚ) + ((50:ℕ) : ℚ) * c9d = 100 + 50 * c9d := by push_cast; ring
  rw [h1, show (250 - 50 : ℕ) = 200 from by norm_num]
  rfl

lemma c9_truncv : truncVolumes c9Input = none :=
  truncVolumes_none (by rw [c9_extract])

lemma c9T_chain : List.Chain' (· < ·) c9T := arithSeq_chain_lt c9d c9d_pos 200 _

lemma c9T_len : c9T.length = 200 := arithSeq_length _ _ _

lemma c9_pairs : ∀ p ∈ c9T.zip c9T.tail,
    (100:ℚ) ≤ p.1 ∧ p.1 ≤ p.2 ∧ p.2 - p.1 ≤ p.1 / 249 := by
  intro p hp
  obtain ⟨heq, hge⟩ := arithSeq_pairs c9d c9d_pos.le 200 (100 + 50 * c9d) p hp
  have h100 : (100:ℚ) ≤ p.1 := by
    have hb : (100:ℚ) ≤ 100 + 50 * c9d := by norm_num [c9d]
    linarith
  refine ⟨h100, by rw [heq]; linarith [c9d_pos], ?_⟩
  rw [heq]
  have hd : c9d = 100/249 := rfl
  rw [hd]
  linarith

lemma c9_mdd : max_drawdown (lastN 120 c9T) = 0 := by
  apply max_drawdown_sorted
  apply List.chain'_iff_pairwise.mpr
  apply List.Pairwise.imp le_of_lt
  exact List.Pairwise.sublist (lastN_sublist_self _ _) (List.chain'_iff_pairwise.mp c9T_chain)

lemma c9_risk : (risk_subscore c9T).1 = 1 := risk_one c9_pairs c9_mdd

lemma c9_roc_head : (lastN 21 c9T).headD 0 = 100 + 50 * c9d + 179 * c9d := by
  unfold lastN
  rw [c9T_len]
  show (c9T.drop 179).headD 0 = _
  unfold c9T
  rw [arithSeq_drop]
  rw [arithSeq_headD _ _ _ (by norm_num)]
  push_cast
  ring

lemma c9_last : c9T.getLastD 0 = 100 + 50 * c9d + 199 * c9d := by
  unfold c9T
  rw [show (200:ℕ) = 199 + 1 from rfl, arithSeq_getLastD]
  push_cast
  ring

lemma c9_roc : pct_change (100 + 50 * c9d + 179 * c9d) (100 + 50 * c9d + 199 * c9d)
    = 10/239 := by
  unfold pct_change c9d
  rw [if_neg (by norm_num)]
  norm_num

lemma c9_window : lastN 60 c9T = arithSeq c9d (100 + 50 * c9d + 140 * c9d) 60 := by
  unfold lastN
  rw [c9T_len]
  show c9T.drop 140 = _
  unfold c9T
  rw [arithSeq_drop]
  have h1 : (100 + 50 * c9d) + ((140:ℕ):ℚ) * c9d = 100 + 50 * c9d + 140 * c9d := by
    push_cast; ring
  rw [h1]

lemma c9_window_pos : ∀ v ∈ lastN 60 c9T, 0 < v := by
  rw [c9_window]
  intro v hv
  have h1 := arithSeq_mem_ge c9d c9d_pos.le 60 _ v hv
  have hbase : (0:ℚ) < 100 + 50 * c9d + 140 * c9d := by norm_num [c9d]
  linarith

lemma c9_window_ne : lastN 60 c9T ≠ [] := by
  rw [c9_window]
  exact arithSeq_ne_nil _ _ _ (by norm_num)

lemma c9_window_chain : List.Chain' (· ≤ ·) (lastN 60 c9T) := by
  rw [c9_window]
  exact List.Chain'.imp (fun a b h => le_of_lt h) (arithSeq_chain_lt c9d c9d_pos 60 _)

lemma c9_macd_ge : (1:ℚ)/2 ≤ normalize_linear
    (pct_change (ema (lastN 60 c9T) 26) (ema (lastN 60 c9T) 12)) (-(3/100)) (3/100) := by
  apply normalize_ge_half
  have hle : ema (lastN 60 c9T) 26 ≤ ema (lastN 60 c9T) 12 :=
    ema_le_ema c9_window_ne c9_window_chain (by norm_num) (by norm_num)
  have hpos : 0 < ema (lastN 60 c9T) 26 := ema_pos c9_window_ne c9_window_pos (by norm_num)
  unfold pct_change
  rw [if_neg (ne_of_gt hpos)]
  exact div_nonneg (by linarith) hpos.le

lemma c9_momentum_ge : (917:ℚ)/2390 ≤ momentum_subscore c9T := by
  unfold momentum_subscore
  simp only
  rw [rsi_of_increasing c9T_chain (by rw [c9T_len]; norm_num)]
  rw [if_pos (by rw [c9T_len]; norm_num : 21 ≤ c9T.length)]
  rw [c9_roc_head, c9_last, c9_roc]
  have hA : (1:ℚ) - normalize_linear |(100:ℚ) - 60| 0 30 = 0 := by
    norm_num [normalize_linear, clamp, min_def, max_def]
  have hB : normalize_linear ((10:ℚ)/239) (-(10/100)) (10/100) = 339/478 := by
    norm_num [normalize_linear, clamp, min_def, max_def]
  rw [hA, hB]
  have hC1 := c9_macd_ge
  have hC2 : normalize_linear (pct_change (ema (lastN 60 c9T) 26) (ema (lastN 60 c9T) 12))
      (-(3/100)) (3/100) ≤ 1 := normalize_linear_le_one _ _ _
  have harg1 : (40:ℚ)/100 * 0 + 40/100 * (339/478)
      + 20/100 * normalize_linear (pct_change (ema (lastN 60 c9T) 26)
        (ema (lastN 60 c9T) 12)) (-(3/100)) (3/100) ≤ 1 := by linarith
  have harg0 : (917:ℚ)/2390 ≤ 40/100 * 0 + 40/100 * (339/478)
      + 20/100 * normalize_linear (pct_change (ema (lastN 60 c9T) 26)
        (ema (lastN 60 c9T) 12)) (-(3/100)) (3/100) := by linarith
  rw [clamp_eq_self (by linarith) harg1]
  exact harg0

lemma exp_taylor_lb : (159:ℝ)/41 < Real.exp (7053/4780) := by
  have h := Real.sum_le_exp_of_nonneg (x := (7053:ℝ)/4780) (by norm_num) 5
  refine lt_of_lt_of_le ?_ h
  rw [Finset.sum_range_succ, Finset.sum_range_succ, Finset.sum_range_succ,
    Finset.sum_range_succ, Finset.sum_range_succ, Finset.sum_range_zero]
  norm_num [Nat.factorial]

lemma curved_score_gt {b : ℝ} (hb : (7131:ℝ)/9560 ≤ b) :
    (159:ℝ)/2 < 100 * curvedOf b := by
  unfold curvedOf
  have hx : (7053:ℝ)/4780 ≤ 6 * (b - 1/2) := by linarith
  have hE : Real.exp (-6 * (b - 1/2)) < 41/159 := by
    rw [show (-6 : ℝ) * (b - 1/2) = -(6 * (b - 1/2)) by ring, Real.exp_neg]
    have h1 : (159:ℝ)/41 < Real.exp (6 * (b - 1/2)) :=
      lt_of_lt_of_le exp_taylor_lb (Real.exp_le_exp.mpr hx)
    have h2 : (0:ℝ) < Real.exp (6 * (b - 1/2)) := Real.exp_pos _
    rw [inv_eq_one_div, div_lt_iff₀ h2]
    nlinarith
  have hEpos : 0 < Real.exp (-6 * (b - 1/2)) := Real.exp_pos _
  rw [mul_one_div, lt_div_iff₀ (by linarith)]
  linarith

lemma c9_blend : (7131:ℝ)/9560 ≤ blendedOf c9T none := by
  unfold blendedOf
  rw [structure_subscore_of_increasing c9T_chain (by rw [c9T_len]), c9_risk]
  rw [show sPart c9T none = (1:ℚ)/2 from rfl]
  have hm := c9_momentum_ge
  have hm1 := momentum_subscore_le_one c9T
  have hmR : (917:ℝ)/2390 ≤ ((momentum_subscore c9T : ℚ) : ℝ) := by
    have h2 : (((917:ℚ)/2390 : ℚ) : ℝ) ≤ ((momentum_subscore c9T : ℚ) : ℝ) :=
      Rat.cast_le.mpr hm
    push_cast at h2
    exact h2
  have hmR1 : ((momentum_subscore c9T : ℚ) : ℝ) ≤ 1 := by exact_mod_cast hm1
  push_cast
  rw [clamp_eq_self (by linarith) (by linarith)]
  linarith

lemma c9_scoreOf : 80 ≤ scoreOf c9T none := by
  unfold scoreOf
  apply le_min
  · have hcurv := curved_score_gt c9_blend
    have h79 : ((79:ℤ):ℝ) + 1/2 < 100 * curvedOf (blendedOf c9T none) := by
      push_cast
      linarith
    have := le_rndE_of_half_lt 79 _ h79
    omega
  · rw [c9_risk]
    have h100 : ((30:ℝ) + 70 * 1) = ((100:ℤ):ℝ) := by norm_num
    rw [h100, rndE_intCast]
    norm_num

lemma c9_label : labelOf c9T none = "Uptrend" := by
  unfold labelOf
  rw [if_pos]
  constructor
  · have := c9_scoreOf
    omega
  · rw [structure_subscore_of_increasing c9T_chain (by rw [c9T_len])]
    norm_num

/-- C9: on the concrete input of 250 daily closes rising linearly from 100
to 200 with no volume data, the engine returns label Uptrend with a score
of at least 80, the reported participation subscore is exactly 0.5, and the
internal series carries no volumes (has_volume is false). -/
theorem C9_linear_uptrend :
    (calculate_momentum_with_delta c9Input).label = "Uptrend"
    ∧ 80 ≤ (calculate_momentum_with_delta c9Input).score
    ∧ (calculate_momentum_with_delta c9Input).components.participation = 1/2
    ∧ (compute_components c9Input).has_volume = false := by
  have hnn : ¬ (extract_series c9Input).1.length < 10 := by
    rw [c9_extract]
    show ¬ c9Prices.length < 10
    rw [c9Prices_len]
    norm_num
  have hcomp : compute_components c9Input = componentsOf c9T none := by
    rw [compute_components_main hnn, c9T_eq, c9_truncv]
  refine ⟨?_, ?_, ?_, ?_⟩
  · rw [calc_label, hcomp, componentsOf_label, c9_label]
  · rw [calc_score, hcomp, componentsOf_score]
    exact c9_scoreOf
  · rw [calc_participation, hcomp, componentsOf_participation]
    show round3 (sPart c9T none) = 1/2
    rw [show sPart c9T none = (1:ℚ)/2 from rfl]
    exact round3_half
  · rw [hcomp, componentsOf_has_volume]
    rfl

end Momentum
